import Mathlib

/-!
A shallow embedding of the snake game in `src/snake.py`, together with
theorems checking the natural-language specification against it.

Conventions of the embedding:
* Python `int` becomes `Int`; grid dimensions become `Nat`.
* Directions are the four single-character codes `'N'/'S'/'E'/'W'` used by the
  source, embedded as the inductive `Dir`.
* Fallible Python code (statements that can raise) returns `Option`: `none`
  models a raised exception.
* Python list indexing (which wraps a negative index once and raises
  `IndexError` past either end) is modelled by `pyGet`/`pySet`; writes that the
  source performs only at already-bounds-checked non-negative coordinates use
  the plain `Grid.set2`.
* The random sampler of `placeFood` is modelled by passing the sampled cell
  (or the list of successive samples) in as an explicit oracle argument.
-/

/-- Direction codes of the source: the keys of `World.matrix_moves`. -/
inductive Dir
  | N | S | E | W
deriving DecidableEq

/-- Embeds the class attribute `World.matrix_moves`. -/
def matrixMoves : Dir → Int × Int
  | .N => (-1, 0)
  | .S => (1, 0)
  | .E => (0, 1)
  | .W => (0, -1)

/-- One entry of `Snake.segments`: a `[distance, direction]` pair. -/
structure Segment where
  distance : Int
  dir : Dir
deriving DecidableEq

/-- The `chars` 4-tuple of `Snake`: (head, horizontal body, vertical body, tail). -/
structure Chars where
  head : Char
  horiz : Char
  vert : Char
  tail : Char
deriving DecidableEq

/-- The default `chars` argument of `Snake.__init__`. -/
def defaultChars : Chars := ⟨'X', '-', '|', 'x'⟩

/-- The tuple `self.snake.chars` as a list, as used by `World.clearSnake`. -/
def Chars.toList (c : Chars) : List Char := [c.head, c.horiz, c.vert, c.tail]

/-- The slice `self.snake.chars[1:]` used by `World.loss`. -/
def Chars.bodyTail (c : Chars) : List Char := [c.horiz, c.vert, c.tail]

/-- The attributes of a constructed `Snake`. -/
structure Snake where
  length : Int
  segments : List Segment
  chars : Chars
deriving DecidableEq

/-- Embeds `Snake.__init__`: each starting segment must begin strictly before
the tail, else the constructor raises (modelled as `none`).  The Python default
arguments are `segments=[[0,'E']]` and `chars=('X','-','|','x')`; callers of
this embedding pass them explicitly.  (The aliasing of the mutable default
list, relevant to one claim only, is modelled separately below.) -/
def Snake.init (length : Int) (segments : List Segment) (chars : Chars) : Option Snake :=
  if segments.any fun seg => seg.distance ≥ length - 1 then none
  else some ⟨length, segments, chars⟩

/-- Embeds `Snake.turn`: prepends a provisional segment at distance `-1`. -/
def Snake.turn (s : Snake) (d : Dir) : Snake :=
  { s with segments := ⟨-1, d⟩ :: s.segments }

/-- Embeds `Snake.grow`: adds to `length`; nothing else is touched. -/
def Snake.grow (s : Snake) (n : Int) : Snake :=
  { s with length := s.length + n }

/-- The property checked by `Snake.__init__`: every segment begins strictly
before the tail. -/
def Snake.segInvariant (s : Snake) : Prop :=
  ∀ seg ∈ s.segments, seg.distance < s.length - 1

instance (s : Snake) : Decidable s.segInvariant := by
  unfold Snake.segInvariant; infer_instance

/-- The world's `self.data`: a list of rows of cell characters. -/
abbrev Grid := List (List Char)

/-- Reading a cell at already-validated non-negative coordinates. -/
def Grid.get2 (g : Grid) (i j : Int) : Char :=
  (g.getD i.toNat []).getD j.toNat ' '

/-- Writing a cell at already-validated non-negative coordinates
(the source only assigns at coordinates its walk has bounds-checked). -/
def Grid.set2 (g : Grid) (i j : Int) (c : Char) : Grid :=
  g.set i.toNat ((g.getD i.toNat []).set j.toNat c)

/-- Python list indexing `l[i]`: a negative index wraps once from the end,
an index past either end raises `IndexError` (modelled as `none`). -/
def pyGet {α : Type} (l : List α) (i : Int) : Option α :=
  if 0 ≤ i ∧ i < l.length then l.get? i.toNat
  else if -(l.length : Int) ≤ i ∧ i < 0 then l.get? (i + l.length).toNat
  else none

/-- Python two-dimensional read `self.data[i][j]`. -/
def pyGet2 (g : Grid) (i j : Int) : Option Char :=
  (pyGet g i).bind fun row => pyGet row j

/-- Python list assignment `l[i] = a` with Python index semantics. -/
def pySet {α : Type} (l : List α) (i : Int) (a : α) : Option (List α) :=
  if 0 ≤ i ∧ i < l.length then some (l.set i.toNat a)
  else if -(l.length : Int) ≤ i ∧ i < 0 then some (l.set (i + l.length).toNat a)
  else none

/-- Python two-dimensional assignment `self.data[i][j] = c`. -/
def pySet2 (g : Grid) (i j : Int) (c : Char) : Option Grid :=
  (pyGet g i).bind fun row => (pySet row j c).bind fun row' => pySet g i row'

/-- The grid has `h` rows, every one of width `w`. -/
def Grid.shaped (g : Grid) (h w : Nat) : Prop :=
  g.length = h ∧ ∀ i : Nat, i < h → (g.getD i []).length = w

instance (g : Grid) (h w : Nat) : Decidable (g.shaped h w) := by
  unfold Grid.shaped; infer_instance

/-- The attributes of a constructed `World`. -/
structure World where
  snake : Snake
  pos : Int × Int
  height : Nat
  width : Nat
  foodchar : Char
  data : Grid
deriving DecidableEq

/-- Embeds `World.gen`: an empty room of blanks. -/
def genGrid (height width : Nat) : Grid :=
  List.replicate height (List.replicate width ' ')

/-- The head position lies inside `[0,height) x [0,width)`. -/
def World.posInBounds (w : World) : Prop :=
  0 ≤ w.pos.1 ∧ w.pos.1 < (w.height : Int) ∧ 0 ≤ w.pos.2 ∧ w.pos.2 < (w.width : Int)

instance (w : World) : Decidable w.posInBounds := by
  unfold World.posInBounds; infer_instance

/-- Piece count of one segment in `World.insertSnake`: the distance delta to
the next segment, or `length` minus its own distance for the last segment. -/
def segLen (length : Int) (s : Segment) (rest : List Segment) : Int :=
  match rest with
  | [] => length - s.distance
  | t :: _ => t.distance - s.distance

/-- The inner `for j in range(seg_length)` loop of `World.insertSnake`:
draw `n` pieces of character `c`, bounds-checking each cell before writing,
and step the pointer opposite the segment's heading after each piece. -/
def drawSeg (height width : Nat) (d : Dir) (c : Char) :
    Nat → Int × Int → Grid → Option ((Int × Int) × Grid)
  | 0, p, g => some (p, g)
  | n + 1, p, g =>
    if 0 ≤ p.1 ∧ p.1 < (height : Int) ∧ 0 ≤ p.2 ∧ p.2 < (width : Int) then
      drawSeg height width d c n
        (p.1 - (matrixMoves d).1, p.2 - (matrixMoves d).2)
        (g.set2 p.1 p.2 c)
    else none

/-- The outer segment loop of `World.insertSnake`.  `mv` carries the latest
value of the Python local `move` (`none` while it is still unassigned). -/
def walkSegs (height width : Nat) (cs : Chars) (length : Int) :
    List Segment → Int × Int → Grid → Option (Int × Int) →
    Option ((Int × Int) × Grid × Option (Int × Int))
  | [], p, g, mv => some (p, g, mv)
  | s :: rest, p, g, mv =>
    match drawSeg height width s.dir
        (if s.dir = .E ∨ s.dir = .W then cs.horiz else cs.vert)
        (segLen length s rest).toNat p g with
    | none => none
    | some (p', g') =>
      walkSegs height width cs length rest p' g'
        (if (segLen length s rest).toNat = 0 then mv else some (matrixMoves s.dir))

/-- Embeds `World.insertSnake`.  `none` models a raised exception: either the
walk's own out-of-bounds check fires, or no piece was ever drawn and the
Python local `move` is unbound at the pointer-undo line (a `NameError`).
When the walk drew at least one piece, the undone pointer and the head
position are the last and first drawn cells, hence already bounds-checked,
so the final two writes use the plain `Grid.set2`. -/
def World.insertSnake (w : World) : Option World :=
  match walkSegs w.height w.width w.snake.chars w.snake.length
      w.snake.segments w.pos w.data none with
  | none => none
  | some (_, _, none) => none
  | some (p, g, some mv) =>
    some { w with data := Grid.set2 (Grid.set2 g (p.1 + mv.1) (p.2 + mv.2) w.snake.chars.tail) w.pos.1 w.pos.2 w.snake.chars.head }

/-- Embeds `World.clearSnake`: every cell holding one of the snake's four
characters becomes a blank; everything else (food included) is kept. -/
def World.clearSnake (w : World) : World :=
  { w with data := w.data.map fun row =>
      row.map fun cell => if cell ∈ w.snake.chars.toList then ' ' else cell }

/-- One successful iteration of the sampling loop in `World.placeFood`:
the pick `(i, j)` is drawn from `range(height) x range(width)` and accepted
only if the cell is blank (`none` means that sample was rejected and the real
loop would draw again). -/
def World.placeFoodAt (w : World) (i j : Nat) : Option World :=
  if i < w.height ∧ j < w.width ∧ w.data.get2 i j = ' ' then
    some { w with data := w.data.set2 i j w.foodchar }
  else none

/-- Embeds `World.__init__` up to and including `insertSnake` (everything that
can raise).  `posArg = none` models the default start: half the height, one
quarter of the width.  The guard models the `raise` taken when the starting
column is smaller than `length - 1` (the source's line builds that exception
message with a stray `/` between two f-strings, so a `TypeError` escapes
instead of the intended message, but an exception is raised either way). -/
def World.initCore (snake : Snake) (posArg : Option (Int × Int))
    (height width : Nat) (foodchar : Char) : Option World :=
  let pos := posArg.getD (((height / 2 : Nat) : Int), ((width / 4 : Nat) : Int))
  if pos.2 < snake.length - 1 then none
  else
    World.insertSnake
      { snake := snake, pos := pos, height := height, width := width,
        foodchar := foodchar, data := genGrid height width }

/-- Full `World.__init__`: `initCore` followed by `placeFood`, with the
sampler's successful pick supplied as `food`. -/
def World.initWith (snake : Snake) (posArg : Option (Int × Int))
    (height width : Nat) (foodchar : Char) (food : Nat × Nat) : Option World :=
  (World.initCore snake posArg height width foodchar).bind fun w =>
    w.placeFoodAt food.1 food.2

/-- The segment-distance update of `World.step`.  `none` models the
`IndexError` raised when `segments` is empty (`segments[0]`) or when a lone
segment has distance `-1` (`segments[1]`).  The result is returned as
(new head segment, remaining segments). -/
def stepSegments : List Segment → Option (Segment × List Segment)
  | [] => none
  | s :: rest =>
    if s.distance = -1 then
      match rest with
      | [] => none
      | t :: r =>
        some (⟨s.distance + 1, s.dir⟩, ⟨t.distance + 1, t.dir⟩ :: r)
    else
      some (s, rest.map fun t => ⟨t.distance + 1, t.dir⟩)

/-- Embeds `World.step`: shift segment distances, then move the head one cell
in the direction of the (possibly just-promoted) head segment. -/
def World.step (w : World) : Option World :=
  match stepSegments w.snake.segments with
  | none => none
  | some (s, rest) =>
    some { w with
      snake := { w.snake with segments := s :: rest },
      pos := (w.pos.1 + (matrixMoves s.dir).1, w.pos.2 + (matrixMoves s.dir).2) }

/-- Embeds `World.onFood`: reads `self.data[self.pos[0]][self.pos[1]]` with
Python index semantics (no bounds check of its own) and compares it to the
food character. -/
def World.onFood (w : World) : Option Bool :=
  (pyGet2 w.data w.pos.1 w.pos.2).map fun c => decide (c = w.foodchar)

/-- Embeds `World.loss`: both coordinates are tested against the bounds
first (Python `or` short-circuits), and only then is the grid read. -/
def World.loss (w : World) : Option Bool :=
  if ¬ (0 ≤ w.pos.1 ∧ w.pos.1 < (w.height : Int)) ∨
     ¬ (0 ≤ w.pos.2 ∧ w.pos.2 < (w.width : Int)) then some true
  else (pyGet2 w.data w.pos.1 w.pos.2).map fun c => decide (c ∈ w.snake.chars.bodyTail)

/-- The driver forwarding player input: `self.snake.turn(d)` on the world's snake. -/
def World.turnSnake (w : World) (d : Dir) : World :=
  { w with snake := w.snake.turn d }

/-- The driver calling `self.snake.grow(n)` on the world's snake. -/
def World.growSnake (w : World) (n : Int) : World :=
  { w with snake := w.snake.grow n }

/-- The statement `self.data[self.pos[0]][self.pos[1]] = ' '` of `World.run`
(the eaten food cell is blanked), with Python index semantics. -/
def World.clearEaten (w : World) : Option World :=
  (pySet2 w.data w.pos.1 w.pos.2 ' ').map fun g => { w with data := g }

/-- The loop `while self.onFood(): self.placeFood()` of `World.run`, with the
sampler's successive picks supplied as a list (running out of modelled picks,
or an `IndexError` from `onFood`, is `none`). -/
def whileOnFoodPlace : List (Nat × Nat) → World → Option World
  | [], w =>
    match w.onFood with
    | some false => some w
    | _ => none
  | pk :: rest, w =>
    match w.onFood with
    | some false => some w
    | none => none
    | some true =>
      match w.placeFoodAt pk.1 pk.2 with
      | some w' => whileOnFoodPlace rest w'
      | none => whileOnFoodPlace rest w

/-- The on-food branch of `World.run`: grow the snake, blank the eaten cell,
then run the food-replacement loop. -/
def World.eatPhase (picks : List (Nat × Nat)) (w : World) : Option World :=
  (World.clearEaten { w with snake := w.snake.grow 1 }).bind
    (whileOnFoodPlace picks)

/-- Number of cells of the grid holding the character `c`. -/
def Grid.countChar (g : Grid) (c : Char) : Nat :=
  (g.map fun row => row.countP fun x => decide (x = c)).sum

/-- Number of cells of the grid holding a character from `cs`. -/
def Grid.countIn (g : Grid) (cs : List Char) : Nat :=
  (g.map fun row => row.countP fun x => decide (x ∈ cs)).sum

/-- Iterated `World.step` on an optional world. -/
def stepsN : Nat → Option World → Option World
  | 0, o => o
  | n + 1, o => stepsN n (o.bind World.step)

/-! ## Pure characterization of the rasterization walk

`walkWrites` recomputes, as a plain list, the sequence of (cell, character)
writes performed by the grid-threading walk of `World.insertSnake`: for each
segment it covers `segLen` cells starting at the current pointer, moving
opposite the segment's heading, with the horizontal body character for an
east- or westbound segment and the vertical one otherwise.  It is related to
`World.insertSnake` by `insertSnake_spec` below and lets the rendering
theorems speak about covered cells. -/

/-- The cells of one segment's run: `n` cells from `p`, each one step `-m`
after the previous. -/
def runCells (m : Int × Int) : Nat → Int × Int → List (Int × Int)
  | 0, _ => []
  | n + 1, p => p :: runCells m n (p.1 - m.1, p.2 - m.2)

/-- The full write sequence of the segment walk (excluding the final tail and
head overwrites). -/
def walkWrites (cs : Chars) (length : Int) :
    List Segment → Int × Int → List ((Int × Int) × Char)
  | [], _ => []
  | s :: rest, p =>
    (runCells (matrixMoves s.dir) (segLen length s rest).toNat p).map
      (fun q => (q, if s.dir = .E ∨ s.dir = .W then cs.horiz else cs.vert)) ++
      walkWrites cs length rest
        (p.1 - (segLen length s rest).toNat * (matrixMoves s.dir).1,
         p.2 - (segLen length s rest).toNat * (matrixMoves s.dir).2)

/-- Apply a list of cell writes to a grid, first to last. -/
def applyWrites (g : Grid) (ws : List ((Int × Int) × Char)) : Grid :=
  ws.foldl (fun g qc => g.set2 qc.1.1 qc.1.2 qc.2) g

/-- A cell is inside an `h x w` grid. -/
def cellInB (h w : Nat) (q : Int × Int) : Prop :=
  0 ≤ q.1 ∧ q.1 < (h : Int) ∧ 0 ≤ q.2 ∧ q.2 < (w : Int)

instance (h w : Nat) (q : Int × Int) : Decidable (cellInB h w q) := by
  unfold cellInB; infer_instance

/-- Segment distances are in travel order: non-decreasing along the list and
the last one at most `length` (so every `segLen` is non-negative). -/
def distsOK (length : Int) : List Segment → Prop
  | [] => True
  | [s] => s.distance ≤ length
  | s :: t :: r => s.distance ≤ t.distance ∧ distsOK length (t :: r)

instance (length : Int) : (segs : List Segment) → Decidable (distsOK length segs)
  | [] => by unfold distsOK; infer_instance
  | [_] => by unfold distsOK; infer_instance
  | _ :: t :: r =>
    have : Decidable (distsOK length (t :: r)) := instDecidableDistsOK length (t :: r)
    by unfold distsOK; infer_instance

/-! ## Heap model for the shared mutable default-segments list

`Snake.__init__` has the default argument `segments=[[0,'E']]`.  In Python
that list object is created once, when the `def` is evaluated, and
`self.segments = segments` stores the object itself, so every snake
constructed without an explicit `segments` argument aliases that single
object, and `turn`'s `self.segments.insert(0, ...)` mutates it in place.
The model below makes object identity explicit: a store of list objects,
reference `0` being the default object, with contents `[[0,'E']]` initially. -/

/-- A reference to a Python list object. -/
abbrev Ref := Nat

/-- The store of segment-list objects. -/
structure Store where
  heap : List (List Segment)
deriving DecidableEq

/-- The store at module load: only the default object `[[0,'E']]` of
`Snake.__init__` exists, at reference `0`. -/
def initStore : Store := ⟨[[⟨0, .E⟩]]⟩

/-- Dereference a list object. -/
def readSegs (st : Store) (r : Ref) : List Segment :=
  st.heap.getD r []

/-- A snake whose `segments` attribute is a reference into the store. -/
structure SnakeObj where
  length : Int
  segsRef : Ref
  chars : Chars
deriving DecidableEq

/-- `Snake(length)` with the `segments` argument omitted: the parameter is
bound to the one default object (reference `0`); the constructor validates its
current contents and stores the reference itself (no copy is made). -/
def mkSnakeDefault (length : Int) (st : Store) : Option SnakeObj :=
  if (readSegs st 0).any (fun seg => seg.distance ≥ length - 1) then none
  else some ⟨length, 0, defaultChars⟩

/-- `Snake.turn` in the heap model: `self.segments.insert(0, [-1, direction])`
mutates the referenced list object in place. -/
def SnakeObj.turnOp (s : SnakeObj) (d : Dir) (st : Store) : Store :=
  ⟨st.heap.set s.segsRef (⟨-1, d⟩ :: readSegs st s.segsRef)⟩

/-- The module-level `s = Snake(3)` as a heap-model object. -/
def snake3Obj : SnakeObj := ⟨3, 0, defaultChars⟩

/-! ## Concrete values used by scenario theorems -/

/-- The module-level snake `s = Snake(3)` (value view). -/
def snake3 : Snake := ⟨3, [⟨0, .E⟩], defaultChars⟩

/-- The module-level world `w = World(s)`, with the food sampler's pick fixed
at `(0, 0)` (a free cell). -/
def world0 : Option World := World.initWith snake3 none 16 16 '*' (0, 0)

/-! ## Basic grid lemmas -/

theorem getD_set_self {α : Type} (l : List α) (n : Nat) (a d : α) (h : n < l.length) :
    (l.set n a).getD n d = a := by
  simp [List.getD_eq_getD_get?, List.getElem?_set_eq_of_lt, h]

theorem getD_set_ne {α : Type} (l : List α) (m n : Nat) (a d : α) (h : m ≠ n) :
    (l.set m a).getD n d = l.getD n d := by
  simp [List.getD_eq_getD_get?, List.getElem?_set_ne, h]

theorem shaped_set2 {g : Grid} {h w : Nat} (hs : g.shaped h w) (i j : Int) (c : Char) :
    (g.set2 i j c).shaped h w := by
  obtain ⟨hlen, hrow⟩ := hs
  refine ⟨by simpa [Grid.set2] using hlen, fun k hk => ?_⟩
  by_cases hik : i.toNat = k
  · subst hik
    by_cases hlt : i.toNat < g.length
    · rw [Grid.set2, getD_set_self _ _ _ _ hlt, List.length_set]
      exact hrow _ (by omega)
    · rw [Grid.set2, List.set_eq_of_length_le (by omega)]
      exact hrow _ (by omega)
  · rw [Grid.set2, getD_set_ne _ _ _ _ _ hik]
    exact hrow _ hk

theorem get2_set2_self {g : Grid} {h w : Nat} (hs : g.shaped h w) {i j : Int}
    (hb : cellInB h w (i, j)) (c : Char) : (g.set2 i j c).get2 i j = c := by
  obtain ⟨hlen, hrow⟩ := hs
  obtain ⟨h1, h2, h3, h4⟩ := hb
  have hi : i.toNat < g.length := by omega
  have hj : j.toNat < (g.getD i.toNat []).length := by
    rw [hrow i.toNat (by omega)]; omega
  rw [Grid.get2, Grid.set2, getD_set_self _ _ _ _ hi, getD_set_self _ _ _ _ hj]

theorem get2_set2_ne {g : Grid} {i j x y : Int} (hi : 0 ≤ i) (hj : 0 ≤ j)
    (hx : 0 ≤ x) (hy : 0 ≤ y) (hne : (x, y) ≠ (i, j)) (c : Char) :
    (g.set2 i j c).get2 x y = g.get2 x y := by
  by_cases hrow : x.toNat = i.toNat
  · have hxi : x = i := by omega
    have hyj : y ≠ j := by
      intro hh; exact hne (by simp [hxi, hh])
    have hyn : j.toNat ≠ y.toNat := by omega
    by_cases hlt : i.toNat < g.length
    · simp only [Grid.get2, Grid.set2, hrow, getD_set_self _ _ _ _ hlt]
      exact getD_set_ne _ _ _ _ _ hyn
    · rw [Grid.set2, List.set_eq_of_length_le (by omega)]
  · rw [Grid.get2, Grid.set2, getD_set_ne _ _ _ _ _ (fun hh => hrow hh.symm), Grid.get2]

theorem get2_mem {g : Grid} {h w : Nat} (hs : g.shaped h w) {q : Int × Int}
    (hb : cellInB h w q) : ∃ row ∈ g, g.get2 q.1 q.2 ∈ row := by
  obtain ⟨hlen, hrow⟩ := hs
  obtain ⟨h1, h2, h3, h4⟩ := hb
  have hi : q.1.toNat < g.length := by omega
  refine ⟨g.getD q.1.toNat [], ?_, ?_⟩
  · rw [List.getD_eq_getElem _ _ hi]; exact List.getElem_mem _
  · have hj : q.2.toNat < (g.getD q.1.toNat []).length := by
      rw [hrow _ (by omega)]; omega
    rw [Grid.get2, List.getD_eq_getElem _ _ hj]
    exact List.getElem_mem _

theorem map_map_getD (g : Grid) (f : Char → Char) (i : Nat) :
    (g.map fun row => row.map f).getD i [] = (g.getD i []).map f := by
  simp only [List.getD_eq_getD_get?, List.get?_map]
  cases g.get? i <;> simp

theorem shaped_genGrid (h w : Nat) : (genGrid h w).shaped h w := by
  refine ⟨by simp [genGrid], fun i hi => ?_⟩
  rw [genGrid, List.getD_eq_getElem _ _ (by simpa using hi)]
  simp

theorem shaped_clearSnake {w : World} {h ww : Nat} (hs : w.data.shaped h ww) :
    w.clearSnake.data.shaped h ww := by
  obtain ⟨hlen, hrow⟩ := hs
  refine ⟨by simpa [World.clearSnake] using hlen, fun i hi => ?_⟩
  rw [World.clearSnake]
  simp only [map_map_getD, List.length_map]
  exact hrow i hi

theorem get2_clearSnake {w : World} {h ww : Nat} (hs : w.data.shaped h ww)
    {q : Int × Int} (hb : cellInB h ww q) :
    w.clearSnake.data.get2 q.1 q.2 =
      if w.data.get2 q.1 q.2 ∈ w.snake.chars.toList then ' '
      else w.data.get2 q.1 q.2 := by
  obtain ⟨hlen, hrow⟩ := hs
  obtain ⟨h1, h2, h3, h4⟩ := hb
  have hj : q.2.toNat < (w.data.getD q.1.toNat []).length := by
    rw [hrow _ (by omega)]; omega
  rw [Grid.get2, World.clearSnake]
  simp only [map_map_getD]
  rw [List.getD_eq_getElem _ _ (by simpa using hj), List.getElem_map,
    Grid.get2, List.getD_eq_getElem _ _ hj]

theorem applyWrites_append (g : Grid) (a b : List ((Int × Int) × Char)) :
    applyWrites g (a ++ b) = applyWrites (applyWrites g a) b :=
  List.foldl_append _ _ _ _

theorem shaped_applyWrites {h w : Nat} (ws : List ((Int × Int) × Char)) :
    ∀ {g : Grid}, g.shaped h w → (applyWrites g ws).shaped h w := by
  induction ws with
  | nil => intro g hs; exact hs
  | cons qc rest ih =>
    intro g hs
    exact ih (shaped_set2 hs _ _ _)

theorem get2_applyWrites_not_mem (ws : List ((Int × Int) × Char)) {x y : Int}
    (hx : 0 ≤ x) (hy : 0 ≤ y)
    (hws : ∀ q ∈ ws.map Prod.fst, 0 ≤ q.1 ∧ 0 ≤ q.2)
    (hmem : (x, y) ∉ ws.map Prod.fst) :
    ∀ (g : Grid), (applyWrites g ws).get2 x y = g.get2 x y := by
  induction ws with
  | nil => intro g; rfl
  | cons qc rest ih =>
    intro g
    have hq := hws qc.1 (by simp)
    have hne : (x, y) ≠ (qc.1.1, qc.1.2) := by
      intro hh
      refine hmem ?_
      simp only [List.map_cons, List.mem_cons]
      exact Or.inl (by simpa [Prod.ext_iff] using hh)
    rw [applyWrites, List.foldl_cons]
    have := ih (fun q hq' => hws q (by simp [hq'])) (fun hm => hmem (by simp [hm]))
      (g.set2 qc.1.1 qc.1.2 qc.2)
    rw [applyWrites] at this
    rw [this, get2_set2_ne hq.1 hq.2 hx hy hne]

theorem get2_applyWrites_mem {h w : Nat} (ws : List ((Int × Int) × Char))
    (hnd : (ws.map Prod.fst).Nodup)
    (hb : ∀ q ∈ ws.map Prod.fst, cellInB h w q) :
    ∀ {g : Grid}, g.shaped h w → ∀ {q : Int × Int} {c : Char}, (q, c) ∈ ws →
      (applyWrites g ws).get2 q.1 q.2 = c := by
  induction ws with
  | nil => intro g _ q c hqc; cases hqc
  | cons qc rest ih =>
    intro g hs q c hqc
    rcases List.mem_cons.1 hqc with hh | ht
    · subst hh
      have hq : cellInB h w q := hb q (by simp)
      have hnotin : q ∉ rest.map Prod.fst := by
        have := hnd
        simp only [List.map_cons, List.nodup_cons] at this
        exact this.1
      rw [applyWrites, List.foldl_cons]
      have hrest : ∀ q' ∈ rest.map Prod.fst, 0 ≤ q'.1 ∧ 0 ≤ q'.2 := by
        intro q' hq'
        have := hb q' (by simp [hq'])
        exact ⟨this.1, this.2.2.1⟩
      have := get2_applyWrites_not_mem rest hq.1 hq.2.2.1 hrest hnotin
        (g.set2 q.1 q.2 c)
      rw [applyWrites] at this
      rw [this, get2_set2_self hs hq]
    · have hnd' : (rest.map Prod.fst).Nodup := by
        simp only [List.map_cons, List.nodup_cons] at hnd
        exact hnd.2
      rw [applyWrites, List.foldl_cons]
      exact ih hnd' (fun q' hq' => hb q' (by simp [hq']))
        (shaped_set2 hs _ _ _) ht

theorem pyGet_of_inb {α : Type} (l : List α) {i : Int} (h1 : 0 ≤ i)
    (h2 : i < l.length) : pyGet l i = l.get? i.toNat := by
  rw [pyGet, if_pos ⟨h1, h2⟩]

theorem pyGet2_of_inb {g : Grid} {h w : Nat} (hs : g.shaped h w) {q : Int × Int}
    (hb : cellInB h w q) : pyGet2 g q.1 q.2 = some (g.get2 q.1 q.2) := by
  obtain ⟨hlen, hrow⟩ := hs
  obtain ⟨h1, h2, h3, h4⟩ := hb
  have hi : q.1.toNat < g.length := by omega
  have hwlen : (g.getD q.1.toNat []).length = w := hrow _ (by omega)
  have hj : q.2.toNat < (g.getD q.1.toNat []).length := by rw [hwlen]; omega
  rw [pyGet2, pyGet_of_inb _ h1 (by exact_mod_cast (by omega : q.1 < (g.length : Int))),
    List.get?_eq_get hi, Option.some_bind, ← List.getD_eq_get g [] hi,
    pyGet_of_inb _ h3 (by rw [hwlen]; exact h4), List.get?_eq_get hj,
    Grid.get2, List.getD_eq_get _ ' ' hj]

/-! ## Relating the walk of insertSnake to its pure write list -/

theorem length_runCells (m : Int × Int) : ∀ (n : Nat) (p : Int × Int),
    (runCells m n p).length = n := by
  intro n
  induction n with
  | zero => intro p; rfl
  | succ k ih => intro p; simp [runCells, ih]

theorem runCells_getLast? (m : Int × Int) : ∀ (k : Nat) (p : Int × Int),
    (runCells m (k + 1) p).getLast? = some (p.1 - k * m.1, p.2 - k * m.2) := by
  intro k
  induction k with
  | zero => intro p; simp [runCells]
  | succ k ih =>
    intro p
    have hcons : runCells m (k + 1 + 1) p =
        p :: runCells m (k + 1) (p.1 - m.1, p.2 - m.2) := rfl
    have hcons2 : runCells m (k + 1) (p.1 - m.1, p.2 - m.2) =
        (p.1 - m.1, p.2 - m.2) ::
          runCells m k (p.1 - m.1 - m.1, p.2 - m.2 - m.2) := rfl
    rw [hcons, hcons2, List.getLast?_cons_cons, ← hcons2, ih]
    congr 1
    simp only [Prod.mk.injEq]
    constructor <;> push_cast <;> ring

theorem getLast?_map {α β : Type} (f : α → β) : ∀ l : List α,
    (l.map f).getLast? = l.getLast?.map f := by
  intro l
  induction l with
  | nil => rfl
  | cons a t ih =>
    cases t with
    | nil => rfl
    | cons b t' => simpa using ih

theorem map_fst_map_pair {α β : Type} (c : β) : ∀ l : List α,
    (l.map fun q => (q, c)).map Prod.fst = l := by
  intro l
  induction l with
  | nil => rfl
  | cons a t ih => simp [ih]

theorem drawSeg_spec {h w : Nat} {d : Dir} {c : Char} :
    ∀ (n : Nat) (p : Int × Int) (g : Grid) {res : (Int × Int) × Grid},
      drawSeg h w d c n p g = some res →
      res.1 = (p.1 - n * (matrixMoves d).1, p.2 - n * (matrixMoves d).2) ∧
      res.2 = applyWrites g ((runCells (matrixMoves d) n p).map fun q => (q, c)) ∧
      ∀ q ∈ runCells (matrixMoves d) n p, cellInB h w q := by
  intro n
  induction n with
  | zero =>
    intro p g res hres
    rw [drawSeg] at hres
    cases hres
    refine ⟨by simp, rfl, ?_⟩
    intro q hq
    cases hq
  | succ k ih =>
    intro p g res hres
    rw [drawSeg] at hres
    split at hres
    case isFalse => cases hres
    case isTrue hbp =>
      obtain ⟨h1, h2, h3⟩ := ih _ _ hres
      refine ⟨?_, ?_, ?_⟩
      · rw [h1]
        simp only [Prod.mk.injEq]
        constructor <;> push_cast <;> ring
      · rw [h2]
        rfl
      · intro q hq
        have : runCells (matrixMoves d) (k + 1) p = p ::
            runCells (matrixMoves d) k
              (p.1 - (matrixMoves d).1, p.2 - (matrixMoves d).2) := rfl
        rw [this] at hq
        rcases List.mem_cons.1 hq with hh | ht
        · subst hh; exact hbp
        · exact h3 q ht

theorem walkSegs_spec {h w : Nat} {cs : Chars} {L : Int} :
    ∀ (segs : List Segment) (p : Int × Int) (g : Grid) (mv0 : Option (Int × Int))
      {res : (Int × Int) × Grid × Option (Int × Int)},
      walkSegs h w cs L segs p g mv0 = some res →
      res.2.1 = applyWrites g (walkWrites cs L segs p) ∧
      (∀ q ∈ (walkWrites cs L segs p).map Prod.fst, cellInB h w q) ∧
      (walkWrites cs L segs p = [] → res.1 = p ∧ res.2.2 = mv0 ∧ res.2.1 = g) ∧
      (walkWrites cs L segs p ≠ [] → ∃ mval, res.2.2 = some mval ∧
        (walkWrites cs L segs p).getLast?.map Prod.fst =
          some (res.1.1 + mval.1, res.1.2 + mval.2)) := by
  intro segs
  induction segs with
  | nil =>
    intro p g mv0 res hres
    rw [walkSegs] at hres
    cases hres
    refine ⟨rfl, ?_, fun _ => ⟨rfl, rfl, rfl⟩, fun hne => absurd rfl hne⟩
    intro q hq
    cases hq
  | cons s rest ih =>
    intro p g mv0 res hres
    rw [walkSegs] at hres
    cases hdraw : drawSeg h w s.dir
        (if s.dir = .E ∨ s.dir = .W then cs.horiz else cs.vert)
        (segLen L s rest).toNat p g with
    | none => rw [hdraw] at hres; cases hres
    | some pg =>
      obtain ⟨p1, g1⟩ := pg
      rw [hdraw] at hres
      replace hres : walkSegs h w cs L rest p1 g1
          (if (segLen L s rest).toNat = 0 then mv0
           else some (matrixMoves s.dir)) = some res := hres
      obtain ⟨hp1, hg1, hbrun⟩ := drawSeg_spec _ p g hdraw
      simp only at hp1 hg1
      obtain ⟨ih1, ih2, ih3, ih4⟩ := ih p1 g1 _ hres
      have hww : walkWrites cs L (s :: rest) p =
          ((runCells (matrixMoves s.dir) (segLen L s rest).toNat p).map
            fun q => (q, if s.dir = .E ∨ s.dir = .W then cs.horiz else cs.vert)) ++
          walkWrites cs L rest
            (p.1 - (segLen L s rest).toNat * (matrixMoves s.dir).1,
             p.2 - (segLen L s rest).toNat * (matrixMoves s.dir).2) := rfl
      have hpp : p1 = (p.1 - (segLen L s rest).toNat * (matrixMoves s.dir).1,
          p.2 - (segLen L s rest).toNat * (matrixMoves s.dir).2) := hp1
      refine ⟨?_, ?_, ?_, ?_⟩
      · rw [hww, applyWrites_append, ← hg1, ← hpp]
        exact ih1
      · intro q hq
        rw [hww, List.map_append, List.mem_append] at hq
        rcases hq with hq | hq
        · rw [map_fst_map_pair] at hq
          exact hbrun q hq
        · rw [← hpp] at hq
          exact ih2 q hq
      · intro hnil
        rw [hww] at hnil
        have hrun := (List.append_eq_nil.1 hnil).1
        have hrest := (List.append_eq_nil.1 hnil).2
        have hn0 : (segLen L s rest).toNat = 0 := by
          have hl := congrArg List.length hrun
          simpa [length_runCells] using hl
        rw [← hpp] at hrest
        obtain ⟨e1, e2, e3⟩ := ih3 hrest
        refine ⟨?_, ?_, ?_⟩
        · rw [e1, hpp, hn0]
          simp
        · rw [e2, hn0]
          rfl
        · rw [e3, hg1, hn0]
          rfl
      · intro hne
        by_cases hrest : walkWrites cs L rest
            (p.1 - (segLen L s rest).toNat * (matrixMoves s.dir).1,
             p.2 - (segLen L s rest).toNat * (matrixMoves s.dir).2) = []
        · have hn0 : (segLen L s rest).toNat ≠ 0 := by
            intro hn0
            rw [hn0] at hrest
            refine hne ?_
            rw [hww, hn0]
            simpa [runCells] using hrest
          obtain ⟨k, hk⟩ := Nat.exists_eq_succ_of_ne_zero hn0
          have hrestP : walkWrites cs L rest p1 = [] := by
            rw [hpp]; exact hrest
          obtain ⟨e1, e2, e3⟩ := ih3 hrestP
          refine ⟨matrixMoves s.dir, ?_, ?_⟩
          · rw [e2]
            simp [hn0]
          · rw [hww]
            have happ : (((runCells (matrixMoves s.dir) (segLen L s rest).toNat p).map
                fun q => (q, if s.dir = .E ∨ s.dir = .W then cs.horiz else cs.vert)) ++
                walkWrites cs L rest
                  (p.1 - (segLen L s rest).toNat * (matrixMoves s.dir).1,
                   p.2 - (segLen L s rest).toNat * (matrixMoves s.dir).2)) =
                ((runCells (matrixMoves s.dir) (segLen L s rest).toNat p).map
                  fun q => (q, if s.dir = .E ∨ s.dir = .W then cs.horiz else cs.vert)) := by
              rw [hrest, List.append_nil]
            rw [happ, getLast?_map, hk, runCells_getLast?]
            rw [e1, hpp, hk]
            simp only [Option.map_map, Option.map_some', Function.comp, Prod.mk.injEq]
            refine congrArg some ?_
            simp only [Prod.mk.injEq]
            constructor <;> push_cast <;> ring
        · obtain ⟨mval, hmv, hlast⟩ := ih4 (by rw [← hpp] at hrest; exact hrest)
          refine ⟨mval, hmv, ?_⟩
          rw [hww, List.getLast?_append_of_ne_nil _ hrest]
          rw [← hpp]
          exact hlast

theorem mem_of_head?_eq {α : Type} {l : List α} {a : α} (h : l.head? = some a) :
    a ∈ l := by
  cases l with
  | nil => cases h
  | cons x t =>
    injection h with hh
    rw [← hh]
    exact List.mem_cons_self x t

theorem mem_of_getLast?_eq {α : Type} {l : List α} {a : α}
    (h : l.getLast? = some a) : a ∈ l := by
  have ha : a ∈ l.getLast? := by rw [h]; rfl
  obtain ⟨hl, hx⟩ := List.mem_getLast?_eq_getLast ha
  rw [hx]
  exact List.getLast_mem hl

theorem walkWrites_head? {cs : Chars} {L : Int} : ∀ (segs : List Segment)
    (p : Int × Int), walkWrites cs L segs p ≠ [] →
    (walkWrites cs L segs p).head?.map Prod.fst = some p := by
  intro segs
  induction segs with
  | nil => intro p hne; exact absurd rfl hne
  | cons s rest ih =>
    intro p hne
    by_cases hn0 : (segLen L s rest).toNat = 0
    · have hww : walkWrites cs L (s :: rest) p =
          walkWrites cs L rest
            (p.1 - ((segLen L s rest).toNat : Int) * (matrixMoves s.dir).1,
             p.2 - ((segLen L s rest).toNat : Int) * (matrixMoves s.dir).2) := by
        have : walkWrites cs L (s :: rest) p =
            ((runCells (matrixMoves s.dir) (segLen L s rest).toNat p).map
              fun q => (q, if s.dir = .E ∨ s.dir = .W then cs.horiz else cs.vert)) ++
            walkWrites cs L rest
              (p.1 - ((segLen L s rest).toNat : Int) * (matrixMoves s.dir).1,
               p.2 - ((segLen L s rest).toNat : Int) * (matrixMoves s.dir).2) := rfl
        rw [this, hn0]
        rfl
      have hp : (p.1 - ((segLen L s rest).toNat : Int) * (matrixMoves s.dir).1,
          p.2 - ((segLen L s rest).toNat : Int) * (matrixMoves s.dir).2) = p := by
        rw [hn0]
        simp
      rw [hww, hp]
      rw [hww, hp] at hne
      exact ih p hne
    · obtain ⟨k, hk⟩ := Nat.exists_eq_succ_of_ne_zero hn0
      have hww : walkWrites cs L (s :: rest) p =
          (p, if s.dir = .E ∨ s.dir = .W then cs.horiz else cs.vert) ::
          ((runCells (matrixMoves s.dir) k
              (p.1 - (matrixMoves s.dir).1, p.2 - (matrixMoves s.dir).2)).map
            fun q => (q, if s.dir = .E ∨ s.dir = .W then cs.horiz else cs.vert)) ++
          walkWrites cs L rest
            (p.1 - ((k.succ : Nat) : Int) * (matrixMoves s.dir).1,
             p.2 - ((k.succ : Nat) : Int) * (matrixMoves s.dir).2) := by
        conv_lhs => rw [walkWrites]
        rw [hk]
        rfl
      rw [hww]
      rfl

/-- What a successful `World.insertSnake` produces, in terms of the pure write
list `walkWrites`: the walk wrote at least one cell, all written cells are in
bounds, the first is the head position, and the final grid is the walk's
writes followed by the tail overwrite (at the last written cell) and the head
overwrite (at the head position).  All other fields are unchanged. -/
theorem insertSnake_spec {w w' : World} (hs : w.insertSnake = some w') :
    walkWrites w.snake.chars w.snake.length w.snake.segments w.pos ≠ [] ∧
    (∀ q ∈ (walkWrites w.snake.chars w.snake.length w.snake.segments w.pos).map
        Prod.fst, cellInB w.height w.width q) ∧
    (walkWrites w.snake.chars w.snake.length w.snake.segments
      w.pos).head?.map Prod.fst = some w.pos ∧
    (∃ tc : Int × Int,
      (walkWrites w.snake.chars w.snake.length w.snake.segments
        w.pos).getLast?.map Prod.fst = some tc ∧
      w'.data = Grid.set2
        (Grid.set2 (applyWrites w.data
          (walkWrites w.snake.chars w.snake.length w.snake.segments w.pos))
          tc.1 tc.2 w.snake.chars.tail)
        w.pos.1 w.pos.2 w.snake.chars.head) ∧
    w'.snake = w.snake ∧ w'.pos = w.pos ∧ w'.height = w.height ∧
    w'.width = w.width ∧ w'.foodchar = w.foodchar := by
  rw [World.insertSnake] at hs
  cases hws : walkSegs w.height w.width w.snake.chars w.snake.length
      w.snake.segments w.pos w.data none with
  | none => rw [hws] at hs; cases hs
  | some res =>
    obtain ⟨p1, g1, mv1⟩ := res
    rw [hws] at hs
    obtain ⟨sp1, sp2, sp3, sp4⟩ := walkSegs_spec _ _ _ _ hws
    cases mv1 with
    | none => cases hs
    | some mv =>
      replace hs : some { w with data := Grid.set2 (Grid.set2 g1 (p1.1 + mv.1) (p1.2 + mv.2) w.snake.chars.tail) w.pos.1 w.pos.2 w.snake.chars.head } = some w' := hs
      injection hs with hs
      have hne : walkWrites w.snake.chars w.snake.length w.snake.segments
          w.pos ≠ [] := by
        intro hnil
        obtain ⟨-, e2, -⟩ := sp3 hnil
        cases e2
      obtain ⟨mval, hmv, hlast⟩ := sp4 hne
      injection hmv with hmv
      refine ⟨hne, sp2, walkWrites_head? _ _ hne,
        ⟨(p1.1 + mval.1, p1.2 + mval.2), hlast, ?_⟩, ?_, ?_, ?_, ?_, ?_⟩
      · rw [← hs, ← sp1, hmv]
      · rw [← hs]
      · rw [← hs]
      · rw [← hs]
      · rw [← hs]
      · rw [← hs]

theorem insertSnake_pos_inB {w w' : World} (hs : w.insertSnake = some w') :
    cellInB w.height w.width w.pos := by
  obtain ⟨hne, hb, hhead, -⟩ := insertSnake_spec hs
  cases hh : (walkWrites w.snake.chars w.snake.length w.snake.segments
      w.pos).head? with
  | none => rw [hh] at hhead; cases hhead
  | some qc =>
    rw [hh] at hhead
    injection hhead with hhead
    have hq := mem_of_head?_eq hh
    have : qc.1 ∈ (walkWrites w.snake.chars w.snake.length w.snake.segments
        w.pos).map Prod.fst := List.mem_map_of_mem Prod.fst hq
    rw [hhead] at this
    exact hb _ this

theorem shaped_insertSnake {w w' : World} (hs : w.insertSnake = some w')
    (hsp : w.data.shaped w.height w.width) :
    w'.data.shaped w.height w.width := by
  obtain ⟨-, -, -, ⟨tc, -, hdata⟩, -⟩ := insertSnake_spec hs
  rw [hdata]
  exact shaped_set2 (shaped_set2 (shaped_applyWrites _ hsp) _ _ _) _ _ _

theorem insertSnake_get2_pos {w w' : World} (hs : w.insertSnake = some w')
    (hsp : w.data.shaped w.height w.width) :
    w'.data.get2 w.pos.1 w.pos.2 = w.snake.chars.head := by
  obtain ⟨-, -, -, ⟨tc, -, hdata⟩, -⟩ := insertSnake_spec hs
  rw [hdata]
  exact get2_set2_self (shaped_set2 (shaped_applyWrites _ hsp) _ _ _)
    (insertSnake_pos_inB hs) _

theorem placeFoodAt_spec {w w' : World} {i j : Nat}
    (hp : w.placeFoodAt i j = some w') :
    i < w.height ∧ j < w.width ∧ w.data.get2 i j = ' ' ∧
    w'.data = w.data.set2 i j w.foodchar ∧ w'.snake = w.snake ∧
    w'.pos = w.pos ∧ w'.height = w.height ∧ w'.width = w.width ∧
    w'.foodchar = w.foodchar := by
  rw [World.placeFoodAt] at hp
  split at hp
  case isFalse => cases hp
  case isTrue hcond =>
    injection hp with hp
    exact ⟨hcond.1, hcond.2.1, hcond.2.2, by rw [← hp], by rw [← hp],
      by rw [← hp], by rw [← hp], by rw [← hp], by rw [← hp]⟩

theorem placeFoodAt_get2_ne {w w' : World} {i j : Nat}
    (hp : w.placeFoodAt i j = some w') {q : Int × Int}
    (hq1 : 0 ≤ q.1) (hq2 : 0 ≤ q.2)
    (hne : w.data.get2 q.1 q.2 ≠ ' ') :
    w'.data.get2 q.1 q.2 = w.data.get2 q.1 q.2 := by
  obtain ⟨-, -, hblank, hdata, -⟩ := placeFoodAt_spec hp
  rw [hdata]
  refine get2_set2_ne (by omega) (by omega) hq1 hq2 ?_ _
  intro hh
  simp only [Prod.mk.injEq] at hh
  rw [hh.1, hh.2] at hne
  exact hne hblank

/-! ## Counting cells -/

theorem countP_set (p : Char → Bool) : ∀ (row : List Char) (j : Nat)
    (c : Char), j < row.length →
    (row.set j c).countP p + (if p (row.getD j ' ') then 1 else 0) =
      row.countP p + (if p c then 1 else 0) := by
  intro row
  induction row with
  | nil => intro j c hj; cases hj
  | cons a t ih =>
    intro j c hj
    cases j with
    | zero =>
      simp only [List.set_cons_zero, List.countP_cons, List.getD_cons_zero]
      omega
    | succ k =>
      have hk : k < t.length := by simpa using hj
      have := ih k c hk
      simp only [List.set_cons_succ, List.countP_cons, List.getD_cons_succ]
      omega

theorem sum_map_set (f : List Char → Nat) : ∀ (g : Grid) (n : Nat)
    (r : List Char), n < g.length →
    ((g.set n r).map f).sum + f (g.getD n []) = (g.map f).sum + f r := by
  intro g
  induction g with
  | nil => intro n r hn; cases hn
  | cons row t ih =>
    intro n r hn
    cases n with
    | zero => simp [List.set_cons_zero]; omega
    | succ k =>
      have hk : k < t.length := by simpa using hn
      have := ih k r hk
      simp only [List.set_cons_succ, List.map_cons, List.sum_cons,
        List.getD_cons_succ]
      omega

theorem countIn_set2_of_not_mem {g : Grid} {h w : Nat} (hs : g.shaped h w)
    {q : Int × Int} (hb : cellInB h w q) {c : Char} {cs : List Char}
    (hold : g.get2 q.1 q.2 ∉ cs) (hc : c ∈ cs) :
    (g.set2 q.1 q.2 c).countIn cs = g.countIn cs + 1 := by
  obtain ⟨hlen, hrow⟩ := hs
  obtain ⟨h1, h2, h3, h4⟩ := hb
  have hi : q.1.toNat < g.length := by omega
  have hj : q.2.toNat < (g.getD q.1.toNat []).length := by
    rw [hrow _ (by omega)]; omega
  have hsum := sum_map_set (fun row => row.countP fun x => decide (x ∈ cs)) g
    q.1.toNat ((g.getD q.1.toNat []).set q.2.toNat c) hi
  dsimp only at hsum
  have hcnt : ((g.getD q.1.toNat []).set q.2.toNat c).countP
      (fun x => decide (x ∈ cs)) =
      (g.getD q.1.toNat []).countP (fun x => decide (x ∈ cs)) + 1 := by
    have hbase := countP_set (fun x => decide (x ∈ cs)) (g.getD q.1.toNat [])
      q.2.toNat c hj
    dsimp only at hbase
    rw [Grid.get2] at hold
    rw [decide_eq_false hold, decide_eq_true hc] at hbase
    simpa using hbase
  simp only [Grid.countIn, Grid.set2]
  omega

theorem countIn_set2_of_mem {g : Grid} {h w : Nat} (hs : g.shaped h w)
    {q : Int × Int} (hb : cellInB h w q) {c : Char} {cs : List Char}
    (hold : g.get2 q.1 q.2 ∈ cs) (hc : c ∈ cs) :
    (g.set2 q.1 q.2 c).countIn cs = g.countIn cs := by
  obtain ⟨hlen, hrow⟩ := hs
  obtain ⟨h1, h2, h3, h4⟩ := hb
  have hi : q.1.toNat < g.length := by omega
  have hj : q.2.toNat < (g.getD q.1.toNat []).length := by
    rw [hrow _ (by omega)]; omega
  have hsum := sum_map_set (fun row => row.countP fun x => decide (x ∈ cs)) g
    q.1.toNat ((g.getD q.1.toNat []).set q.2.toNat c) hi
  dsimp only at hsum
  have hcnt : ((g.getD q.1.toNat []).set q.2.toNat c).countP
      (fun x => decide (x ∈ cs)) =
      (g.getD q.1.toNat []).countP (fun x => decide (x ∈ cs)) := by
    have hbase := countP_set (fun x => decide (x ∈ cs)) (g.getD q.1.toNat [])
      q.2.toNat c hj
    dsimp only at hbase
    rw [Grid.get2] at hold
    rw [decide_eq_true hold, decide_eq_true hc] at hbase
    simpa using hbase
  simp only [Grid.countIn, Grid.set2]
  omega

theorem countIn_zero {g : Grid} {cs : List Char}
    (hg : ∀ row ∈ g, ∀ c ∈ row, c ∉ cs) : g.countIn cs = 0 := by
  induction g with
  | nil => rfl
  | cons row t ih =>
    rw [Grid.countIn, List.map_cons, List.sum_cons]
    have h1 : row.countP (fun x => decide (x ∈ cs)) = 0 := by
      rw [List.countP_eq_zero]
      intro a ha
      simp only [decide_eq_true_eq]
      exact hg row (by simp) a ha
    have h2 := ih fun r hr => hg r (by simp [hr])
    rw [Grid.countIn] at h2
    omega

theorem countIn_applyWrites {h w : Nat} {cs : List Char} :
    ∀ (ws : List ((Int × Int) × Char)) (g : Grid), g.shaped h w →
    (ws.map Prod.fst).Nodup →
    (∀ q ∈ ws.map Prod.fst, cellInB h w q) →
    (∀ q ∈ ws.map Prod.fst, g.get2 q.1 q.2 ∉ cs) →
    (∀ qc ∈ ws, qc.2 ∈ cs) →
    (applyWrites g ws).countIn cs = g.countIn cs + ws.length := by
  intro ws
  induction ws with
  | nil => intro g _ _ _ _ _; simp [applyWrites]
  | cons qc rest ih =>
    intro g hs hnd hb hbase hchars
    have hq : cellInB h w qc.1 := hb qc.1 (by simp)
    have hnotin : qc.1 ∉ rest.map Prod.fst := by
      simp only [List.map_cons, List.nodup_cons] at hnd
      exact hnd.1
    have hset : (g.set2 qc.1.1 qc.1.2 qc.2).countIn cs = g.countIn cs + 1 :=
      countIn_set2_of_not_mem hs hq (hbase qc.1 (by simp)) (hchars qc (by simp))
    have hrest := ih (g.set2 qc.1.1 qc.1.2 qc.2) (shaped_set2 hs _ _ _)
      (by simp only [List.map_cons, List.nodup_cons] at hnd; exact hnd.2)
      (fun q hq' => hb q (by simp [hq']))
      (fun q hq' => by
        have hne : (q.1, q.2) ≠ (qc.1.1, qc.1.2) := by
          intro hh
          refine hnotin ?_
          have : q = qc.1 := by
            obtain ⟨a, b⟩ := q
            simpa [Prod.ext_iff] using hh
          rw [← this]
          exact hq'
        have hqb := hb q (by simp [hq'])
        rw [get2_set2_ne hq.1 hq.2.2.1 hqb.1 hqb.2.2.1 hne]
        exact hbase q (by simp [hq']))
      (fun qc' hqc' => hchars qc' (by simp [hqc']))
    rw [applyWrites, List.foldl_cons] at *
    rw [hrest, hset]
    simp only [List.length_cons]
    omega

theorem clearSnake_cells_not_mem {w : World}
    (hsp : ' ' ∉ w.snake.chars.toList) :
    ∀ row ∈ w.clearSnake.data, ∀ c ∈ row, c ∉ w.snake.chars.toList := by
  intro row hrow c hc
  rw [World.clearSnake] at hrow
  simp only [List.mem_map] at hrow
  obtain ⟨row0, -, hrow0⟩ := hrow
  rw [← hrow0] at hc
  simp only [List.mem_map] at hc
  obtain ⟨c0, -, hc0⟩ := hc
  rw [← hc0]
  split
  · exact hsp
  · next hnm => exact hnm

theorem distsOK_head_le {L : Int} : ∀ {s : Segment} {rest : List Segment},
    distsOK L (s :: rest) → s.distance ≤ L := by
  intro s rest
  induction rest generalizing s with
  | nil => intro hd; exact hd
  | cons t r ih =>
    intro hd
    obtain ⟨h1, h2⟩ := hd
    exact le_trans h1 (ih h2)

theorem length_walkWrites {cs : Chars} {L : Int} :
    ∀ (rest : List Segment) (s : Segment) (p : Int × Int),
    distsOK L (s :: rest) →
    ((walkWrites cs L (s :: rest) p).length : Int) = L - s.distance := by
  intro rest
  induction rest with
  | nil =>
    intro s p hd
    have hle : s.distance ≤ L := hd
    have : walkWrites cs L [s] p =
        (runCells (matrixMoves s.dir) (segLen L s []).toNat p).map
          (fun q => (q, if s.dir = .E ∨ s.dir = .W then cs.horiz else cs.vert)) ++
        [] := rfl
    rw [this, List.append_nil, List.length_map, length_runCells, segLen]
    omega
  | cons t r ih =>
    intro s p hd
    obtain ⟨h1, h2⟩ := hd
    have hle : t.distance ≤ L := distsOK_head_le h2
    have hw : walkWrites cs L (s :: t :: r) p =
        (runCells (matrixMoves s.dir) (segLen L s (t :: r)).toNat p).map
          (fun q => (q, if s.dir = .E ∨ s.dir = .W then cs.horiz else cs.vert)) ++
        walkWrites cs L (t :: r)
          (p.1 - ((segLen L s (t :: r)).toNat : Int) * (matrixMoves s.dir).1,
           p.2 - ((segLen L s (t :: r)).toNat : Int) * (matrixMoves s.dir).2) := rfl
    rw [hw, List.length_append, List.length_map, length_runCells]
    have hihl := ih t (p.1 - ((segLen L s (t :: r)).toNat : Int) * (matrixMoves s.dir).1,
      p.2 - ((segLen L s (t :: r)).toNat : Int) * (matrixMoves s.dir).2) h2
    push_cast
    rw [hihl, segLen]
    omega

theorem walkWrites_snd {cs : Chars} {L : Int} : ∀ (segs : List Segment)
    (p : Int × Int), ∀ qc ∈ walkWrites cs L segs p,
    qc.2 = cs.horiz ∨ qc.2 = cs.vert := by
  intro segs
  induction segs with
  | nil => intro p qc hqc; cases hqc
  | cons s rest ih =>
    intro p qc hqc
    rw [walkWrites, List.mem_append] at hqc
    rcases hqc with hqc | hqc
    · simp only [List.mem_map] at hqc
      obtain ⟨q, -, hq⟩ := hqc
      rw [← hq]
      split
      · exact Or.inl rfl
      · exact Or.inr rfl
    · exact ih _ qc hqc

theorem pyGet_none_of_ge {α : Type} (l : List α) {i : Int}
    (hi : (l.length : Int) ≤ i) : pyGet l i = none := by
  rw [pyGet, if_neg (by omega), if_neg (by omega)]

theorem pyGet_neg {α : Type} (l : List α) {i : Int}
    (h1 : -(l.length : Int) ≤ i) (h2 : i < 0) :
    pyGet l i = l.get? (i + l.length).toNat := by
  rw [pyGet, if_neg (by omega), if_pos ⟨h1, h2⟩]

theorem head_ne_getLast_of_nodup {α : Type} {l : List α} {a b : α}
    (hnd : l.Nodup) (hlen : 2 ≤ l.length) (ha : l.head? = some a)
    (hb : l.getLast? = some b) : a ≠ b := by
  cases l with
  | nil => cases ha
  | cons x t =>
    injection ha with ha
    cases t with
    | nil => simp at hlen
    | cons y t' =>
      rw [List.getLast?_cons_cons] at hb
      have hbmem : b ∈ y :: t' := mem_of_getLast?_eq hb
      simp only [List.nodup_cons] at hnd
      intro hab
      exact hnd.1 (by rw [ha, hab]; exact hbmem)

theorem eq_of_pair_eq {q r : Int × Int} (h : (q.1, q.2) = (r.1, r.2)) : q = r := by
  simpa [Prod.ext_iff] using h

/-- Everything the rendering theorems need about `clearSnake` followed by
`insertSnake`, phrased through the pure write list `walkWrites` (whose
characters are the horizontal body glyph for east/west segments and the
vertical one for north/south segments): the final grid holds the head
character at the head position, the tail character at the last written cell,
each written cell's own character elsewhere on the walk, and the cleared
grid's content off the walk. -/
theorem renderSpec {w w' : World}
    (hr : (w.clearSnake).insertSnake = some w')
    (hsp : w.data.shaped w.height w.width)
    (hnd : ((walkWrites w.snake.chars w.snake.length w.snake.segments
      w.pos).map Prod.fst).Nodup) :
    ∃ tc : Int × Int,
      (walkWrites w.snake.chars w.snake.length w.snake.segments
        w.pos).getLast?.map Prod.fst = some tc ∧
      tc ∈ (walkWrites w.snake.chars w.snake.length w.snake.segments
        w.pos).map Prod.fst ∧
      w.pos ∈ (walkWrites w.snake.chars w.snake.length w.snake.segments
        w.pos).map Prod.fst ∧
      (∀ q ∈ (walkWrites w.snake.chars w.snake.length w.snake.segments
        w.pos).map Prod.fst, cellInB w.height w.width q) ∧
      w'.data.shaped w.height w.width ∧
      w'.data.get2 w.pos.1 w.pos.2 = w.snake.chars.head ∧
      (w.pos ≠ tc → w'.data.get2 tc.1 tc.2 = w.snake.chars.tail) ∧
      (∀ q c, (q, c) ∈ walkWrites w.snake.chars w.snake.length
          w.snake.segments w.pos → q ≠ w.pos → q ≠ tc →
        w'.data.get2 q.1 q.2 = c) ∧
      (∀ q, cellInB w.height w.width q →
        q ∉ (walkWrites w.snake.chars w.snake.length w.snake.segments
          w.pos).map Prod.fst →
        w'.data.get2 q.1 q.2 = w.clearSnake.data.get2 q.1 q.2) := by
  have hspc : (w.clearSnake).data.shaped w.height w.width := shaped_clearSnake hsp
  obtain ⟨hne, hb, hhead, ⟨tc, hlast, hdata⟩, -⟩ := insertSnake_spec hr
  simp only [World.clearSnake] at hne hb hhead hlast hdata
  have hposmem : w.pos ∈ (walkWrites w.snake.chars w.snake.length
      w.snake.segments w.pos).map Prod.fst := by
    cases hh : (walkWrites w.snake.chars w.snake.length w.snake.segments
        w.pos).head? with
    | none => rw [hh] at hhead; cases hhead
    | some qc =>
      rw [hh] at hhead
      injection hhead with hhead
      have hmem := List.mem_map_of_mem Prod.fst (mem_of_head?_eq hh)
      rw [hhead] at hmem
      exact hmem
  have htcmem : tc ∈ (walkWrites w.snake.chars w.snake.length
      w.snake.segments w.pos).map Prod.fst := by
    cases hh : (walkWrites w.snake.chars w.snake.length w.snake.segments
        w.pos).getLast? with
    | none => rw [hh] at hlast; cases hlast
    | some qc =>
      rw [hh] at hlast
      injection hlast with hlast
      have hmem := List.mem_map_of_mem Prod.fst (mem_of_getLast?_eq hh)
      rw [hlast] at hmem
      exact hmem
  have hbpos := hb _ hposmem
  have hbtc := hb _ htcmem
  have hshA : (applyWrites w.clearSnake.data (walkWrites w.snake.chars
      w.snake.length w.snake.segments w.pos)).shaped w.height w.width :=
    shaped_applyWrites _ hspc
  have hshT : ((applyWrites w.clearSnake.data (walkWrites w.snake.chars
      w.snake.length w.snake.segments w.pos)).set2 tc.1 tc.2
        w.snake.chars.tail).shaped w.height w.width := shaped_set2 hshA _ _ _
  refine ⟨tc, hlast, htcmem, hposmem, hb, ?_, ?_, ?_, ?_, ?_⟩
  · rw [hdata]
    exact shaped_set2 hshT _ _ _
  · rw [hdata]
    exact get2_set2_self hshT hbpos _
  · intro hptc
    rw [hdata]
    rw [get2_set2_ne hbpos.1 hbpos.2.2.1 hbtc.1 hbtc.2.2.1
      (fun hh => hptc (eq_of_pair_eq hh).symm) _]
    exact get2_set2_self hshA hbtc _
  · intro q c hqc hqpos hqtc
    have hqmem : q ∈ (walkWrites w.snake.chars w.snake.length
        w.snake.segments w.pos).map Prod.fst := by
      refine List.mem_map.2 ⟨(q, c), hqc, rfl⟩
    have hbq := hb _ hqmem
    rw [hdata]
    rw [get2_set2_ne hbpos.1 hbpos.2.2.1 hbq.1 hbq.2.2.1
      (fun hh => hqpos (eq_of_pair_eq hh)) _]
    rw [get2_set2_ne hbtc.1 hbtc.2.2.1 hbq.1 hbq.2.2.1
      (fun hh => hqtc (eq_of_pair_eq hh)) _]
    exact get2_applyWrites_mem _ hnd hb hspc hqc
  · intro q hbq hqmem
    have hqpos : q ≠ w.pos := fun hh => hqmem (hh ▸ hposmem)
    have hqtc : q ≠ tc := fun hh => hqmem (hh ▸ htcmem)
    rw [hdata]
    rw [get2_set2_ne hbpos.1 hbpos.2.2.1 hbq.1 hbq.2.2.1
      (fun hh => hqpos (eq_of_pair_eq hh)) _]
    rw [get2_set2_ne hbtc.1 hbtc.2.2.1 hbq.1 hbq.2.2.1
      (fun hh => hqtc (eq_of_pair_eq hh)) _]
    refine get2_applyWrites_not_mem _ hbq.1 hbq.2.2.1 ?_ hqmem _
    intro q' hq'
    have := hb q' hq'
    exact ⟨this.1, this.2.2.1⟩

theorem get2_applyWrites_cells {w : World}
    (hsp : w.data.shaped w.height w.width)
    (hnd : ((walkWrites w.snake.chars w.snake.length w.snake.segments
      w.pos).map Prod.fst).Nodup)
    (hb : ∀ q ∈ (walkWrites w.snake.chars w.snake.length w.snake.segments
      w.pos).map Prod.fst, cellInB w.height w.width q)
    {q : Int × Int}
    (hq : q ∈ (walkWrites w.snake.chars w.snake.length w.snake.segments
      w.pos).map Prod.fst) :
    (applyWrites w.clearSnake.data (walkWrites w.snake.chars w.snake.length
      w.snake.segments w.pos)).get2 q.1 q.2 ∈ w.snake.chars.toList := by
  obtain ⟨qc, hqc, hfst⟩ := List.mem_map.1 hq
  have := get2_applyWrites_mem _ hnd hb (shaped_clearSnake hsp) hqc
  rw [hfst] at this
  rw [this]
  rcases walkWrites_snd _ _ qc hqc with hh | hh <;> rw [hh] <;>
    simp [Chars.toList]

/-- After `clearSnake` then a successful `insertSnake` with pairwise-distinct
covered cells, the number of grid cells holding one of the snake's characters
is exactly the number of cells the walk covers. -/
theorem countIn_render {w w' : World}
    (hr : (w.clearSnake).insertSnake = some w')
    (hsp : w.data.shaped w.height w.width)
    (hnd : ((walkWrites w.snake.chars w.snake.length w.snake.segments
      w.pos).map Prod.fst).Nodup)
    (hsp2 : ' ' ∉ w.snake.chars.toList) :
    w'.data.countIn w.snake.chars.toList =
      (walkWrites w.snake.chars w.snake.length w.snake.segments w.pos).length := by
  have hspc : (w.clearSnake).data.shaped w.height w.width := shaped_clearSnake hsp
  have hcd : w.clearSnake.data = List.map (fun row => List.map
      (fun cell => if cell ∈ w.snake.chars.toList then ' ' else cell) row)
      w.data := rfl
  obtain ⟨hne, hb, hhead, ⟨tc, hlast, hdata⟩, -⟩ := insertSnake_spec hr
  simp only [World.clearSnake] at hne hb hhead hlast hdata
  rw [← hcd] at hdata
  obtain ⟨tc', hlast', htcmem, hposmem, -, -, -, -, -⟩ := renderSpec hr hsp hnd
  have htceq : tc' = tc := by
    rw [hlast'] at hlast
    injection hlast
  rw [htceq] at htcmem hlast'
  have hbtc := hb _ htcmem
  have hbpos := hb _ hposmem
  have hclbase : ∀ q ∈ (walkWrites w.snake.chars w.snake.length
      w.snake.segments w.pos).map Prod.fst,
      (w.clearSnake).data.get2 q.1 q.2 ∉ w.snake.chars.toList := by
    intro q hq
    rw [get2_clearSnake hsp (hb q hq)]
    split
    · exact hsp2
    · next hnm => exact hnm
  have hcl0 : (w.clearSnake).data.countIn w.snake.chars.toList = 0 :=
    countIn_zero (clearSnake_cells_not_mem hsp2)
  have hA : (applyWrites w.clearSnake.data (walkWrites w.snake.chars
      w.snake.length w.snake.segments w.pos)).countIn w.snake.chars.toList =
      (walkWrites w.snake.chars w.snake.length w.snake.segments w.pos).length := by
    have hmain := countIn_applyWrites (walkWrites w.snake.chars w.snake.length
      w.snake.segments w.pos) w.clearSnake.data hspc hnd hb hclbase
      (by
        intro qc hqc
        rcases walkWrites_snd _ _ qc hqc with hh | hh <;> rw [hh] <;>
          simp [Chars.toList])
    rw [hmain, hcl0]
    omega
  have hshA : (applyWrites w.clearSnake.data (walkWrites w.snake.chars
      w.snake.length w.snake.segments w.pos)).shaped w.height w.width :=
    shaped_applyWrites _ hspc
  have htcold : (applyWrites w.clearSnake.data (walkWrites w.snake.chars
      w.snake.length w.snake.segments w.pos)).get2 tc.1 tc.2 ∈
      w.snake.chars.toList := get2_applyWrites_cells hsp hnd hb htcmem
  have hB : ((applyWrites w.clearSnake.data (walkWrites w.snake.chars
      w.snake.length w.snake.segments w.pos)).set2 tc.1 tc.2
        w.snake.chars.tail).countIn w.snake.chars.toList =
      (walkWrites w.snake.chars w.snake.length w.snake.segments w.pos).length := by
    rw [countIn_set2_of_mem hshA hbtc htcold (by simp [Chars.toList]), hA]
  have hshB : ((applyWrites w.clearSnake.data (walkWrites w.snake.chars
      w.snake.length w.snake.segments w.pos)).set2 tc.1 tc.2
        w.snake.chars.tail).shaped w.height w.width := shaped_set2 hshA _ _ _
  have hposold : ((applyWrites w.clearSnake.data (walkWrites w.snake.chars
      w.snake.length w.snake.segments w.pos)).set2 tc.1 tc.2
        w.snake.chars.tail).get2 w.pos.1 w.pos.2 ∈ w.snake.chars.toList := by
    by_cases hpt : w.pos = tc
    · rw [show w.pos.1 = tc.1 from congrArg Prod.fst hpt,
        show w.pos.2 = tc.2 from congrArg Prod.snd hpt]
      rw [get2_set2_self hshA hbtc]
      simp [Chars.toList]
    · rw [get2_set2_ne hbtc.1 hbtc.2.2.1 hbpos.1 hbpos.2.2.1
        (fun hh => hpt (eq_of_pair_eq hh)) _]
      exact get2_applyWrites_cells hsp hnd hb hposmem
  rw [hdata]
  rw [countIn_set2_of_mem hshB hbpos hposold (by simp [Chars.toList]), hB]

/-! ## Claim theorems -/

/-- C6: in the concrete run, `Snake(3)` with default segments and
`World(height=16, width=16)` with the default start put the head glyph at
(8,4), the horizontal body glyph at (8,3) and the tail glyph at (8,2) (the
two body cells (8,3) and (8,2) form the horizontal east-bound run, the
rearmost being overwritten by the tail glyph); one `step()` with no turn
moves the head to (8,5); a subsequent `turn('S')` followed by `step()`
moves it to (9,5). -/
theorem claim_C6 :
    (world0.map fun w => (w.pos, w.data.get2 8 4, w.data.get2 8 3,
      w.data.get2 8 2)) = some ((8, 4), 'X', '-', 'x') ∧
    ((world0.bind World.step).map fun w => w.pos) = some (8, 5) ∧
    ((((world0.bind World.step).map fun w => w.turnSnake .S).bind
      World.step).map fun w => w.pos) = some (9, 5) := by
  refine ⟨rfl, rfl, rfl⟩

/-- C9: every snake constructed without an explicit `segments` argument
aliases the one shared mutable default list (created once when
`Snake.__init__` was defined; the module-level `Snake(3)` uses it too):
after that snake turns, a later default-constructed snake of any admissible
length observes the prepended `[-1, d]` segment in its own `segments`, equal
to what the first snake now sees and different from `[[0,'E']]`. -/
theorem claim_C9 (d : Dir) (len : Int) (hlen : 2 ≤ len) :
    mkSnakeDefault 3 initStore = some snake3Obj ∧
    (∀ s2, mkSnakeDefault len (snake3Obj.turnOp d initStore) = some s2 →
      readSegs (snake3Obj.turnOp d initStore) s2.segsRef = [⟨-1, d⟩, ⟨0, .E⟩] ∧
      readSegs (snake3Obj.turnOp d initStore) snake3Obj.segsRef =
        [⟨-1, d⟩, ⟨0, .E⟩] ∧
      readSegs (snake3Obj.turnOp d initStore) s2.segsRef ≠ [⟨0, .E⟩]) ∧
    (mkSnakeDefault len (snake3Obj.turnOp d initStore)).isSome = true := by
  have hread : readSegs (snake3Obj.turnOp d initStore) 0 =
      [⟨-1, d⟩, ⟨0, .E⟩] := rfl
  have hcond : ((readSegs (snake3Obj.turnOp d initStore) 0).any
      fun seg => decide (seg.distance ≥ len - 1)) = false := by
    rw [hread]
    have h1 : ¬ ((-1 : Int) ≥ len - 1) := by omega
    have h2 : ¬ ((0 : Int) ≥ len - 1) := by omega
    show (decide ((-1 : Int) ≥ len - 1) ||
      (decide ((0 : Int) ≥ len - 1) || false)) = false
    rw [decide_eq_false h1, decide_eq_false h2]
    rfl
  refine ⟨rfl, ?_, ?_⟩
  · intro s2 hs2
    rw [mkSnakeDefault] at hs2
    rw [if_neg (by rw [hcond]; simp)] at hs2
    injection hs2 with hs2
    rw [← hs2]
    refine ⟨hread, hread, ?_⟩
    rw [hread]
    simp
  · rw [mkSnakeDefault, if_neg (by rw [hcond]; simp)]
    rfl

/-- C1 (amended): for every world state whose segment list is nonempty and,
when the front distance is `-1`, has a second segment behind it (as always
holds for a `-1` segment prepended by `turn`), `step()` follows the
two-case distance rule and then moves the head one cell by the
direction-to-delta mapping, and raises nothing (returns `some`): if the
front distance is `-1` the two frontmost segments are incremented (the
queued segment becoming the distance-0 head) and all others are unchanged;
otherwise every segment except the head is incremented. -/
theorem claim_C1 (w : World) :
    (∀ s t r, w.snake.segments = s :: t :: r → s.distance = -1 →
      w.step = some { w with snake := { w.snake with segments := ⟨0, s.dir⟩ :: ⟨t.distance + 1, t.dir⟩ :: r }, pos := (w.pos.1 + (matrixMoves s.dir).1, w.pos.2 + (matrixMoves s.dir).2) }) ∧
    (∀ s r, w.snake.segments = s :: r → s.distance ≠ -1 →
      w.step = some { w with snake := { w.snake with segments := s :: (r.map fun t => ⟨t.distance + 1, t.dir⟩) }, pos := (w.pos.1 + (matrixMoves s.dir).1, w.pos.2 + (matrixMoves s.dir).2) }) := by
  constructor
  · intro s t r hseg hdist
    have hss : stepSegments w.snake.segments =
        some (⟨0, s.dir⟩, ⟨t.distance + 1, t.dir⟩ :: r) := by
      rw [hseg]
      simp [stepSegments, hdist]
    rw [World.step, hss]
  · intro s r hseg hdist
    have hss : stepSegments w.snake.segments =
        some (s, r.map fun t => ⟨t.distance + 1, t.dir⟩) := by
      rw [hseg]
      simp [stepSegments, hdist]
    rw [World.step, hss]

/-- Witness for C1: a turned snake (front distance `-1` with a segment behind
it) steps to the promoted head and moves south by `(+1, 0)`. -/
theorem claim_C1_witness :
    World.step ⟨⟨3, [⟨-1, .S⟩, ⟨0, .E⟩], defaultChars⟩, (8, 4), 16, 16, '*', []⟩ =
      some ⟨⟨3, [⟨0, .S⟩, ⟨1, .E⟩], defaultChars⟩, (9, 4), 16, 16, '*', []⟩ :=
  (claim_C1 ⟨⟨3, [⟨-1, .S⟩, ⟨0, .E⟩], defaultChars⟩, (8, 4), 16, 16, '*', []⟩).1
    ⟨-1, .S⟩ ⟨0, .E⟩ [] rfl rfl

/-- Counterexample to C1 as stated: `Snake(1, [[-1,'E']])` passes the
constructor's validation, `World` accepts it, yet `step()` raises an
`IndexError` at `segments[1]` (there is no second frontmost segment to
promote), so `step` is not exception-free on every world state. -/
theorem claim_C1_cex :
    ((Snake.init 1 [⟨-1, .E⟩] defaultChars).bind fun s =>
      World.initWith s none 16 16 '*' (0, 0)).isSome = true ∧
    (((Snake.init 1 [⟨-1, .E⟩] defaultChars).bind fun s =>
      World.initWith s none 16 16 '*' (0, 0)).bind World.step) = none := by
  exact ⟨rfl, rfl⟩

/-- C2 (amended): the constructor-checked invariant (every segment's distance
strictly less than `length - 1`) holds after every successful `Snake`
construction and is preserved by `turn` (for positive length) and by `grow`
(by a non-negative amount), but it is not preserved by `World.step` (see the
counterexample): step increments every non-head distance without bound while
segments are never removed. -/
theorem claim_C2 (L : Int) (segs : List Segment) (cs : Chars) (s : Snake)
    (n : Int) (d : Dir) :
    (Snake.init L segs cs = some s → s.segInvariant) ∧
    (s.segInvariant → 0 < s.length → (s.turn d).segInvariant) ∧
    (s.segInvariant → 0 ≤ n → (s.grow n).segInvariant) := by
  refine ⟨?_, ?_, ?_⟩
  · intro hinit
    rw [Snake.init] at hinit
    split at hinit
    case isTrue => cases hinit
    case isFalse hcond =>
      injection hinit with hinit
      rw [← hinit]
      intro seg hseg
      show seg.distance < L - 1
      by_contra hge
      refine hcond ?_
      rw [List.any_eq_true]
      exact ⟨seg, hseg, by simp only [decide_eq_true_eq]; omega⟩
  · intro hinv hpos seg hseg
    rcases List.mem_cons.1 hseg with hh | ht
    · rw [hh]
      show (-1 : Int) < s.length - 1
      omega
    · exact hinv seg ht
  · intro hinv hn seg hseg
    have := hinv seg hseg
    show seg.distance < s.length + n - 1
    omega

/-- Witness for C2: the module-level `Snake(3)` is validly constructed and
satisfies the invariant, as do its turned and grown variants. -/
theorem claim_C2_witness :
    snake3.segInvariant ∧ (snake3.turn .S).segInvariant ∧
      (snake3.grow 1).segInvariant :=
  ⟨(claim_C2 3 [⟨0, .E⟩] defaultChars snake3 1 .S).1 rfl,
   (claim_C2 3 [⟨0, .E⟩] defaultChars snake3 1 .S).2.1
     ((claim_C2 3 [⟨0, .E⟩] defaultChars snake3 1 .S).1 rfl) (by decide),
   (claim_C2 3 [⟨0, .E⟩] defaultChars snake3 1 .S).2.2
     ((claim_C2 3 [⟨0, .E⟩] defaultChars snake3 1 .S).1 rfl) (by decide)⟩

/-- Reaching a state that violates the constructor-checked invariant:
the default world, one `turn('S')` (followed by a step, as required) and a
second step. -/
def c2chain : Option World :=
  ((world0.map fun w => w.turnSnake .S).bind World.step).bind World.step

/-- Counterexample to C2 as stated: from the validly constructed module-level
world, `turn('S')` followed by two `step()` calls (each turn followed by a
step) leaves the old eastbound segment at distance `2 = length - 1`, violating
the invariant that every distance is strictly below `length - 1`. -/
theorem claim_C2_cex :
    Snake.init 3 [⟨0, .E⟩] defaultChars = some snake3 ∧
    (c2chain.map fun w => w.snake.segments) = some [⟨0, .S⟩, ⟨2, .E⟩] ∧
    (c2chain.map fun w => decide w.snake.segInvariant) = some false := by
  exact ⟨rfl, rfl, rfl⟩

/-- The module-level world with the food pick at (8,5) — directly east of the
head — after one `step()`: the head now sits on the food. -/
def c3world : Option World :=
  (World.initWith snake3 none 16 16 '*' (8, 5)).bind World.step

/-- C3 (code bug): when the head lands on food, `World.run` grows the snake
and blanks the eaten cell, but its replacement loop
`while self.onFood(): self.placeFood()` tests `onFood` after the cell was
already blanked, so the guard is immediately false, `placeFood` is never
called (whatever the sampler would have produced), and the board is left
with zero food cells — instead of exactly one new food cell as claimed. -/
theorem claim_C3 (picks : List (Nat × Nat)) :
    (c3world.bind World.onFood) = some true ∧
    ((c3world.bind (World.eatPhase picks)).map fun w =>
      (w.data.countChar '*', w.snake.length)) = some (0, 4) ∧
    ((c3world.bind (World.eatPhase picks)).bind World.onFood) = some false := by
  refine ⟨rfl, ?_, ?_⟩ <;> cases picks <;> rfl

/-- Counterexample to C7 as stated: with the validly constructed module-level
snake and the explicit position `(100, 5)`, the starting-column condition of
section 4.2 holds (`5 ≥ length - 1 = 2`), yet `World.__init__` still raises —
`insertSnake` walks out of the 16x16 grid while drawing the initial body. -/
theorem claim_C7_cex :
    Snake.init 3 [⟨0, .E⟩] defaultChars = some snake3 ∧
    ¬ ((100, 5) : Int × Int).2 < snake3.length - 1 ∧
    World.initCore snake3 (some (100, 5)) 16 16 '*' = none := by
  exact ⟨rfl, by decide, rfl⟩

/-- C7 (amended): `Snake.__init__` raises iff some initial segment's distance
is at least `length - 1`; `World.__init__` raises when the starting column is
smaller than `length - 1` (the direction stated in section 4.2 — section 8's
reversed inequality does not match the code), and otherwise raises exactly
when rasterizing the initial snake does (an out-of-bounds walk), so
construction succeeds iff the column condition holds and the initial body
fits the grid. -/
theorem claim_C7 (L : Int) (segs : List Segment) (cs : Chars) (snake : Snake)
    (pos : Int × Int) (h ww : Nat) (fc : Char) :
    (Snake.init L segs cs = none ↔ ∃ seg ∈ segs, seg.distance ≥ L - 1) ∧
    (pos.2 < snake.length - 1 →
      World.initCore snake (some pos) h ww fc = none) ∧
    (¬ pos.2 < snake.length - 1 →
      World.initCore snake (some pos) h ww fc =
        World.insertSnake { snake := snake, pos := pos, height := h, width := ww, foodchar := fc, data := genGrid h ww }) := by
  refine ⟨?_, ?_, ?_⟩
  · rw [Snake.init]
    split
    case isTrue hcond =>
      simp only [List.any_eq_true, decide_eq_true_eq] at hcond
      exact ⟨fun _ => hcond, fun _ => rfl⟩
    case isFalse hcond =>
      simp only [List.any_eq_true, decide_eq_true_eq] at hcond
      constructor
      · intro hh; cases hh
      · intro hh; exact absurd hh hcond
  · intro hlt
    show (if pos.2 < snake.length - 1 then none
      else World.insertSnake { snake := snake, pos := pos, height := h, width := ww, foodchar := fc, data := genGrid h ww }) = none
    rw [if_pos hlt]
  · intro hge
    show (if pos.2 < snake.length - 1 then none
      else World.insertSnake { snake := snake, pos := pos, height := h, width := ww, foodchar := fc, data := genGrid h ww }) = _
    rw [if_neg hge]

/-- Witness for C7: a too-short snake fails `Snake` validation, a start
column smaller than `length - 1` fails `World` validation, and the default
start column succeeds (the construction equals its `insertSnake` result,
which is `some`). -/
theorem claim_C7_witness :
    Snake.init 1 [⟨0, .E⟩] defaultChars = none ∧
    World.initCore snake3 (some (8, 0)) 16 16 '*' = none ∧
    World.initCore snake3 (some (8, 4)) 16 16 '*' =
      World.insertSnake { snake := snake3, pos := (8, 4), height := 16, width := 16, foodchar := '*', data := genGrid 16 16 } :=
  ⟨(claim_C7 1 [⟨0, .E⟩] defaultChars snake3 (8, 0) 16 16 '*').1.mpr
      ⟨⟨0, .E⟩, by decide, by decide⟩,
   (claim_C7 1 [⟨0, .E⟩] defaultChars snake3 (8, 0) 16 16 '*').2.1 (by decide),
   (claim_C7 1 [⟨0, .E⟩] defaultChars snake3 (8, 4) 16 16 '*').2.2 (by decide)⟩

theorem shaped_row_length {g : Grid} {h w : Nat} (hs : g.shaped h w) {n : Nat}
    {row : List Char} (hrow : g.get? n = some row) : row.length = w := by
  obtain ⟨hn, hget⟩ := List.get?_eq_some.1 hrow
  have hww := hs.2 n (by rw [← hs.1]; exact hn)
  rw [List.getD_eq_get g [] hn, hget] at hww
  exact hww

/-- The world reached by turning north and stepping nine times from the
module-level world, with the food pick at `(15, 4)`: the head has left the
grid at row `-1` while the food sits at the opposite edge in the same
column. -/
def c10chain : Option World :=
  stepsN 9 ((World.initWith snake3 none 16 16 '*' (15, 4)).map fun w =>
    w.turnSnake .N)

/-- C10: `onFood` indexes the grid at the head position with no bounds check
of its own: a head row equal to `height` (or column equal to `width`) raises
`IndexError`; a head row of `-1` wraps around and reads row `height - 1`, so
there is a reachable out-of-bounds head state in which `onFood()` returns
`True`; `loss`, by contrast, tests both coordinates before indexing and never
raises. -/
theorem claim_C10 :
    (∀ w : World, w.data.shaped w.height w.width →
      (w.pos.1 = w.height ∨ w.pos.2 = w.width) → w.onFood = none) ∧
    (∀ w : World, w.data.shaped w.height w.width → 0 < w.height →
      w.pos.1 = -1 → 0 ≤ w.pos.2 → w.pos.2 < w.width →
      w.onFood = some (decide (w.data.get2 ((w.height : Int) - 1) w.pos.2 =
        w.foodchar))) ∧
    ((c10chain.map fun w => w.pos) = some (-1, 4) ∧
      c10chain.bind World.onFood = some true) ∧
    (∀ w : World, w.data.shaped w.height w.width → w.loss ≠ none) := by
  refine ⟨?_, ?_, ⟨rfl, rfl⟩, ?_⟩
  · intro w hs hcase
    rcases hcase with hp0 | hp1
    · have hl : w.data.length = w.height := hs.1
      rw [World.onFood, pyGet2, pyGet_none_of_ge w.data (by omega)]
      rfl
    · rw [World.onFood, pyGet2]
      cases hrow : pyGet w.data w.pos.1 with
      | none => rfl
      | some row =>
        have hrl : row.length = w.width := by
          rw [pyGet] at hrow
          split at hrow
          · exact shaped_row_length hs hrow
          · split at hrow
            · exact shaped_row_length hs hrow
            · cases hrow
        rw [Option.some_bind, pyGet_none_of_ge row (by omega)]
        rfl
  · intro w hs hpos hp0 hp2a hp2b
    have hl : w.data.length = w.height := hs.1
    have hpg : pyGet w.data w.pos.1 = pyGet w.data ((w.height : Int) - 1) := by
      rw [hp0, pyGet_neg w.data (by omega) (by norm_num),
        pyGet_of_inb w.data (by omega) (by omega)]
      congr 1
      omega
    have hin : cellInB w.height w.width ((w.height : Int) - 1, w.pos.2) :=
      ⟨by omega, by omega, hp2a, by omega⟩
    have := pyGet2_of_inb hs hin
    rw [World.onFood, pyGet2, hpg]
    rw [pyGet2] at this
    rw [this]
    rfl
  · intro w hs
    rw [World.loss]
    split
    · simp
    · next hcond =>
      push_neg at hcond
      have hin : cellInB w.height w.width w.pos :=
        ⟨hcond.1.1, hcond.1.2, hcond.2.1, hcond.2.2⟩
      rw [pyGet2_of_inb hs hin]
      simp

/-- Witness for C10: a concrete world whose head row equals the height makes
`onFood` raise, a head row of `-1` reads the opposite edge, and `loss` is
total on the module-level world. -/
theorem claim_C10_witness :
    World.onFood ⟨snake3, (16, 4), 16, 16, '*', genGrid 16 16⟩ = none ∧
    World.onFood ⟨snake3, (-1, 4), 16, 16, '*', genGrid 16 16⟩ =
      some (decide ((genGrid 16 16).get2 ((16 : Int) - 1) 4 = '*')) ∧
    World.loss ⟨snake3, (16, 4), 16, 16, '*', genGrid 16 16⟩ ≠ none :=
  ⟨claim_C10.1 ⟨snake3, (16, 4), 16, 16, '*', genGrid 16 16⟩ (by decide)
      (Or.inl (by decide)),
   claim_C10.2.1 ⟨snake3, (-1, 4), 16, 16, '*', genGrid 16 16⟩ (by decide)
      (by decide) (by decide) (by decide) (by decide),
   claim_C10.2.2.2 ⟨snake3, (16, 4), 16, 16, '*', genGrid 16 16⟩ (by decide)⟩

/-- A throwaway world used only as the default of `Option.getD` below. -/
def dummyWorld : World := ⟨snake3, (0, 0), 0, 0, '*', []⟩

/-- The module-level world `w = World(s)` as a plain value. -/
def w8a : World := world0.getD dummyWorld

/-- C4: `loss()` is true iff the head position is outside
`[0,height) x [0,width)` or the grid cell at the head holds one of the
non-head snake characters (`chars[1:]`: horizontal body, vertical body,
tail) — food, background and head glyphs do not trigger loss — and it never
raises; and `loss()` is `False` immediately after every valid `World`
construction (for a glyph set whose head character is distinct from the
body/tail characters and from the blank). -/
theorem claim_C4 :
    (∀ w : World, w.data.shaped w.height w.width →
      ((w.loss = some true ↔ ¬ w.posInBounds ∨
        w.data.get2 w.pos.1 w.pos.2 ∈ w.snake.chars.bodyTail) ∧
       w.loss ≠ none)) ∧
    (∀ (snake : Snake) (posArg : Option (Int × Int)) (h ww : Nat) (fc : Char)
      (pick : Nat × Nat) (w' : World),
      snake.chars.head ∉ snake.chars.bodyTail → snake.chars.head ≠ ' ' →
      World.initWith snake posArg h ww fc pick = some w' →
      w'.loss = some false) := by
  constructor
  · intro w hs
    constructor
    · rw [World.loss]
      split
      · next hcond =>
        refine ⟨fun _ => Or.inl fun hpb => ?_, fun _ => rfl⟩
        rcases hcond with hc | hc
        · exact hc ⟨hpb.1, hpb.2.1⟩
        · exact hc ⟨hpb.2.2.1, hpb.2.2.2⟩
      · next hcond =>
        push_neg at hcond
        have hin : cellInB w.height w.width w.pos :=
          ⟨hcond.1.1, hcond.1.2, hcond.2.1, hcond.2.2⟩
        rw [pyGet2_of_inb hs hin]
        simp only [Option.map_some']
        constructor
        · intro hh
          injection hh with hh
          exact Or.inr (of_decide_eq_true hh)
        · intro hor
          rcases hor with hnb | hmem
          · exact absurd ⟨hcond.1.1, hcond.1.2, hcond.2.1, hcond.2.2⟩ hnb
          · rw [decide_eq_true hmem]
    · rw [World.loss]
      split
      · simp
      · next hcond =>
        push_neg at hcond
        have hin : cellInB w.height w.width w.pos :=
          ⟨hcond.1.1, hcond.1.2, hcond.2.1, hcond.2.2⟩
        rw [pyGet2_of_inb hs hin]
        simp
  · intro snake posArg h ww fc pick w' hch hcsp hinit
    rw [World.initWith] at hinit
    cases hcore : World.initCore snake posArg h ww fc with
    | none => rw [hcore] at hinit; cases hinit
    | some w1 =>
      rw [hcore, Option.some_bind] at hinit
      replace hcore : (if (posArg.getD (((h / 2 : Nat) : Int), ((ww / 4 : Nat) : Int))).2 < snake.length - 1 then none else World.insertSnake { snake := snake, pos := posArg.getD (((h / 2 : Nat) : Int), ((ww / 4 : Nat) : Int)), height := h, width := ww, foodchar := fc, data := genGrid h ww }) = some w1 := hcore
      split at hcore
      · cases hcore
      · have hspre : (genGrid h ww).shaped h ww := shaped_genGrid h ww
        have hpos1 : cellInB h ww
            (posArg.getD (((h / 2 : Nat) : Int), ((ww / 4 : Nat) : Int))) :=
          insertSnake_pos_inB hcore
        have hget : w1.data.get2
            (posArg.getD (((h / 2 : Nat) : Int), ((ww / 4 : Nat) : Int))).1
            (posArg.getD (((h / 2 : Nat) : Int), ((ww / 4 : Nat) : Int))).2 =
            snake.chars.head := insertSnake_get2_pos hcore hspre
        have hsh1 : w1.data.shaped h ww := shaped_insertSnake hcore hspre
        obtain ⟨-, -, -, -, hsn, hpos, hhh, hwd, hfcq⟩ := insertSnake_spec hcore
        obtain ⟨hpi, hpj, hblank, hdata, hsn', hpos', hhh', hwd', hfcq'⟩ :=
          placeFoodAt_spec hinit
        have hget' : w'.data.get2
            (posArg.getD (((h / 2 : Nat) : Int), ((ww / 4 : Nat) : Int))).1
            (posArg.getD (((h / 2 : Nat) : Int), ((ww / 4 : Nat) : Int))).2 =
            snake.chars.head := by
          rw [placeFoodAt_get2_ne hinit hpos1.1 hpos1.2.2.1
            (by rw [hget]; exact hcsp)]
          exact hget
        have hsh' : w'.data.shaped h ww := by
          rw [hdata]
          exact shaped_set2 hsh1 _ _ _
        have hwpos : w'.pos =
            posArg.getD (((h / 2 : Nat) : Int), ((ww / 4 : Nat) : Int)) := by
          rw [hpos', hpos]
        have hwh : w'.height = h := by rw [hhh', hhh]
        have hww2 : w'.width = ww := by rw [hwd', hwd]
        have hwsn : w'.snake = snake := by rw [hsn', hsn]
        have hsh2 : w'.data.shaped w'.height w'.width := by
          rw [hwh, hww2]
          exact hsh'
        have hin' : cellInB w'.height w'.width w'.pos := by
          rw [hwh, hww2, hwpos]
          exact hpos1
        rw [World.loss]
        rw [if_neg (by
          push_neg
          exact ⟨⟨hin'.1, hin'.2.1⟩, ⟨hin'.2.2.1, hin'.2.2.2⟩⟩)]
        rw [pyGet2_of_inb hsh2 hin']
        simp only [Option.map_some']
        rw [show w'.pos.1 = (posArg.getD (((h / 2 : Nat) : Int),
            ((ww / 4 : Nat) : Int))).1 from congrArg Prod.fst hwpos,
          show w'.pos.2 = (posArg.getD (((h / 2 : Nat) : Int),
            ((ww / 4 : Nat) : Int))).2 from congrArg Prod.snd hwpos,
          hget', hwsn, decide_eq_false hch]

/-- Witness for C4: the module-level world is a valid construction with
distinct default glyphs, and its `loss()` is `False` (and raises nothing). -/
theorem claim_C4_witness : w8a.loss = some false ∧ w8a.loss ≠ none :=
  ⟨(claim_C4).2 snake3 none 16 16 '*' (0, 0) w8a (by decide) (by decide) rfl,
   ((claim_C4).1 w8a (by decide)).2⟩

/-- The situation in which a world's snake rasterizes cleanly: shaped grid, a
successful `clearSnake`-then-`insertSnake` round trip, pairwise-distinct
covered cells, travel-ordered distances with the head segment at distance 0,
and a blank that is not one of the snake's characters. -/
def RenderOK (w w' : World) : Prop :=
  w.data.shaped w.height w.width ∧
  (w.clearSnake).insertSnake = some w' ∧
  ((walkWrites w.snake.chars w.snake.length w.snake.segments w.pos).map
    Prod.fst).Nodup ∧
  distsOK w.snake.length w.snake.segments ∧
  (w.snake.segments.head?.map fun s => s.distance) = some 0 ∧
  ' ' ∉ w.snake.chars.toList

instance (w w' : World) : Decidable (RenderOK w w') := by
  unfold RenderOK; infer_instance

/-- C8: `grow(n)` immediately adds exactly `n` to the `length` field and
changes nothing else (neither the segment list nor any other snake or world
field); and for any two cleanly-rasterizing snake states — such as the same
world before growing and after growing once the subsequent steps have made
the longer tail traversable — whose lengths differ by `n ≥ 0`, the rasterized
body cell counts differ by exactly `n`. -/
theorem claim_C8 :
    (∀ (s : Snake) (n : Int), (s.grow n).length = s.length + n ∧
      (s.grow n).segments = s.segments ∧ (s.grow n).chars = s.chars) ∧
    (∀ (w : World) (n : Int), (w.growSnake n).pos = w.pos ∧
      (w.growSnake n).data = w.data ∧ (w.growSnake n).height = w.height ∧
      (w.growSnake n).width = w.width ∧
      (w.growSnake n).foodchar = w.foodchar) ∧
    (∀ (w1 w1' w2 w2' : World) (n : Int), RenderOK w1 w1' → RenderOK w2 w2' →
      w2.snake.length = w1.snake.length + n → 0 ≤ n →
      w2'.data.countIn w2.snake.chars.toList =
        w1'.data.countIn w1.snake.chars.toList + n.toNat) := by
  refine ⟨fun s n => ⟨rfl, rfl, rfl⟩, fun w n => ⟨rfl, rfl, rfl, rfl, rfl⟩, ?_⟩
  intro w1 w1' w2 w2' n h1 h2 hlen hn
  obtain ⟨hs1, hr1, hnd1, hd1, hh1, hb1⟩ := h1
  obtain ⟨hs2, hr2, hnd2, hd2, hh2, hb2⟩ := h2
  have hc1 := countIn_render hr1 hs1 hnd1 hb1
  have hc2 := countIn_render hr2 hs2 hnd2 hb2
  have hw1 : ((walkWrites w1.snake.chars w1.snake.length w1.snake.segments
      w1.pos).length : Int) = w1.snake.length := by
    cases hsg : w1.snake.segments with
    | nil => rw [hsg] at hh1; simp at hh1
    | cons s r =>
      rw [hsg] at hh1
      simp only [List.head?_cons, Option.map_some'] at hh1
      injection hh1 with hh1
      rw [hsg] at hd1
      have hlw := @length_walkWrites w1.snake.chars w1.snake.length r s
        w1.pos hd1
      rw [hlw, hh1]
      omega
  have hw2 : ((walkWrites w2.snake.chars w2.snake.length w2.snake.segments
      w2.pos).length : Int) = w2.snake.length := by
    cases hsg : w2.snake.segments with
    | nil => rw [hsg] at hh2; simp at hh2
    | cons s r =>
      rw [hsg] at hh2
      simp only [List.head?_cons, Option.map_some'] at hh2
      injection hh2 with hh2
      rw [hsg] at hd2
      have hlw := @length_walkWrites w2.snake.chars w2.snake.length r s
        w2.pos hd2
      rw [hlw, hh2]
      omega
  rw [hc1, hc2]
  omega

/-- The module-level world rendered afresh (`clearSnake` then `insertSnake`,
as `__repr__` does). -/
def w8a' : World := ((w8a.clearSnake).insertSnake).getD dummyWorld

/-- The module-level world after `grow(1)`. -/
def w8b : World := w8a.growSnake 1

/-- The grown world rendered afresh: the tail run is one cell longer. -/
def w8b' : World := ((w8b.clearSnake).insertSnake).getD dummyWorld

/-- Witness for C8: growing the module-level snake by one increases the
rendered body cell count from 3 to 4. -/
theorem claim_C8_witness :
    w8b'.data.countIn w8b.snake.chars.toList =
      w8a'.data.countIn w8a.snake.chars.toList + (1 : Int).toNat :=
  (claim_C8).2.2 w8a w8a' w8b w8b' 1 (by refine ⟨by decide, rfl, by decide, by decide, by decide, by decide⟩)
    (by refine ⟨by decide, rfl, by decide, by decide, by decide, by decide⟩)
    (by decide) (by decide)

theorem head?_map {α β : Type} (f : α → β) (l : List α) :
    (l.map f).head? = l.head?.map f := by
  cases l <;> rfl

/-- C5: rasterizing then rendering (`clearSnake` followed by `insertSnake`,
as `__repr__` does) on a cleanly-rasterizing state (walk cells pairwise
distinct and at least two of them; the four glyphs pairwise distinct and
distinct from the blank; the food glyph not a snake glyph) places the head
glyph at exactly one cell — the head position — and the tail glyph at
exactly one cell — the last covered cell; every other covered cell shows its
own segment's body glyph, which `walkWrites` chooses as the horizontal glyph
for an east/west segment and the vertical glyph for a north/south segment;
and a previously placed food glyph is preserved on every cell the snake does
not cover. -/
theorem claim_C5 (w w' : World)
    (hr : (w.clearSnake).insertSnake = some w')
    (hsp : w.data.shaped w.height w.width)
    (hnd : ((walkWrites w.snake.chars w.snake.length w.snake.segments
      w.pos).map Prod.fst).Nodup)
    (hlen2 : 2 ≤ (walkWrites w.snake.chars w.snake.length w.snake.segments
      w.pos).length)
    (hcs : w.snake.chars.toList.Nodup)
    (hbl : ' ' ∉ w.snake.chars.toList)
    (hfc : w.foodchar ∉ w.snake.chars.toList) :
    ∃ tc : Int × Int,
      (walkWrites w.snake.chars w.snake.length w.snake.segments
        w.pos).getLast?.map Prod.fst = some tc ∧ tc ≠ w.pos ∧
      (∀ q, cellInB w.height w.width q →
        (w'.data.get2 q.1 q.2 = w.snake.chars.head ↔ q = w.pos)) ∧
      (∀ q, cellInB w.height w.width q →
        (w'.data.get2 q.1 q.2 = w.snake.chars.tail ↔ q = tc)) ∧
      (∀ q c, (q, c) ∈ walkWrites w.snake.chars w.snake.length
          w.snake.segments w.pos → q ≠ w.pos → q ≠ tc →
        w'.data.get2 q.1 q.2 = c) ∧
      (∀ q, cellInB w.height w.width q →
        q ∉ (walkWrites w.snake.chars w.snake.length w.snake.segments
          w.pos).map Prod.fst →
        w.data.get2 q.1 q.2 = w.foodchar →
        w'.data.get2 q.1 q.2 = w.foodchar) := by
  obtain ⟨tc, hlast, htcmem, hposmem, hb, hsh', hheadg, htailg, hint, hoff⟩ :=
    renderSpec hr hsp hnd
  obtain ⟨-, -, hhd, -, -⟩ := insertSnake_spec hr
  simp only [World.clearSnake] at hhd
  have hcellh : ((walkWrites w.snake.chars w.snake.length w.snake.segments
      w.pos).map Prod.fst).head? = some w.pos := by
    rw [head?_map]
    exact hhd
  have hcelll : ((walkWrites w.snake.chars w.snake.length w.snake.segments
      w.pos).map Prod.fst).getLast? = some tc := by
    rw [getLast?_map]
    exact hlast
  have hlencells : 2 ≤ ((walkWrites w.snake.chars w.snake.length
      w.snake.segments w.pos).map Prod.fst).length := by
    rw [List.length_map]
    exact hlen2
  have hptc : w.pos ≠ tc :=
    head_ne_getLast_of_nodup hnd hlencells hcellh hcelll
  have htl := htailg hptc
  have h1 : w.snake.chars.head ∉ [w.snake.chars.horiz, w.snake.chars.vert,
      w.snake.chars.tail] := (List.nodup_cons.1 hcs).1
  have hrest := (List.nodup_cons.1 hcs).2
  have h2 : w.snake.chars.horiz ∉ [w.snake.chars.vert, w.snake.chars.tail] :=
    (List.nodup_cons.1 hrest).1
  have h3 : w.snake.chars.vert ∉ [w.snake.chars.tail] :=
    (List.nodup_cons.1 (List.nodup_cons.1 hrest).2).1
  have hht : w.snake.chars.head ≠ w.snake.chars.tail := by
    intro hh
    exact h1 (by rw [hh]; simp)
  have hohor : w.snake.chars.head ≠ w.snake.chars.horiz := by
    intro hh
    exact h1 (by rw [hh]; simp)
  have hover : w.snake.chars.head ≠ w.snake.chars.vert := by
    intro hh
    exact h1 (by rw [hh]; simp)
  have hhortl : w.snake.chars.horiz ≠ w.snake.chars.tail := by
    intro hh
    exact h2 (by rw [hh]; simp)
  have hvertl : w.snake.chars.vert ≠ w.snake.chars.tail := by
    intro hh
    exact h3 (by rw [hh]; simp)
  have hclr : ∀ q, cellInB w.height w.width q →
      w.clearSnake.data.get2 q.1 q.2 ∉ w.snake.chars.toList := by
    intro q hq
    rw [get2_clearSnake hsp hq]
    split
    · exact hbl
    · next hnm => exact hnm
  refine ⟨tc, hlast, fun hh => hptc hh.symm, ?_, ?_, hint, ?_⟩
  · intro q hq
    constructor
    · intro hget
      by_contra hqpos
      by_cases hqtc : q = tc
      · rw [hqtc] at hget
        exact hht (htl.symm.trans hget).symm
      · by_cases hqcell : q ∈ (walkWrites w.snake.chars w.snake.length
            w.snake.segments w.pos).map Prod.fst
        · obtain ⟨qc, hin, hfst⟩ := List.mem_map.1 hqcell
          have hgc := hint qc.1 qc.2 (by rw [Prod.mk.eta]; exact hin)
            (by rw [hfst]; exact hqpos) (by rw [hfst]; exact hqtc)
          rw [hfst] at hgc
          rw [hget] at hgc
          rcases walkWrites_snd _ _ qc hin with hh | hh <;> rw [hh] at hgc
          · exact hohor hgc
          · exact hover hgc
        · have hval := hoff q hq hqcell
          rw [hget] at hval
          exact (hclr q hq) (by rw [← hval]; simp [Chars.toList])
    · intro hh
      rw [hh]
      exact hheadg
  · intro q hq
    constructor
    · intro hget
      by_contra hqtc
      by_cases hqpos : q = w.pos
      · rw [hqpos] at hget
        exact hht (hget.symm.trans hheadg).symm
      · by_cases hqcell : q ∈ (walkWrites w.snake.chars w.snake.length
            w.snake.segments w.pos).map Prod.fst
        · obtain ⟨qc, hin, hfst⟩ := List.mem_map.1 hqcell
          have hgc := hint qc.1 qc.2 (by rw [Prod.mk.eta]; exact hin)
            (by rw [hfst]; exact hqpos) (by rw [hfst]; exact hqtc)
          rw [hfst] at hgc
          rw [hget] at hgc
          rcases walkWrites_snd _ _ qc hin with hh | hh <;> rw [hh] at hgc
          · exact hhortl hgc.symm
          · exact hvertl hgc.symm
        · have hval := hoff q hq hqcell
          rw [hget] at hval
          exact (hclr q hq) (by rw [← hval]; simp [Chars.toList])
    · intro hh
      rw [hh]
      exact htl
  · intro q hq hqcell hfood
    rw [hoff q hq hqcell, get2_clearSnake hsp hq, hfood, if_neg hfc]

/-- Witness for C5: on the module-level world (food at (0,0)), re-rendering
shows the head glyph at (8,4), the tail glyph at (8,2), the horizontal body
glyph at (8,3), and the food glyph preserved at (0,0). -/
theorem claim_C5_witness :
    w8a'.data.get2 8 4 = 'X' ∧ w8a'.data.get2 8 2 = 'x' ∧
    w8a'.data.get2 8 3 = '-' ∧ w8a'.data.get2 0 0 = '*' := by
  obtain ⟨tc, hlast, htcne, hhead, htail, hint, hfood⟩ :=
    claim_C5 w8a w8a' rfl (by decide) (by decide) (by decide) (by decide)
      (by decide) (by decide)
  have h2 : (walkWrites w8a.snake.chars w8a.snake.length w8a.snake.segments
      w8a.pos).getLast?.map Prod.fst = some ((8 : Int), (2 : Int)) := by decide
  have htc : tc = ((8 : Int), (2 : Int)) := by
    have hh := h2.symm.trans hlast
    injection hh with hh
    exact hh.symm
  refine ⟨?_, ?_, ?_, ?_⟩
  · exact (hhead (8, 4) (by decide)).mpr (by decide)
  · exact (htail (8, 2) (by decide)).mpr (by rw [htc])
  · exact hint (8, 3) '-' (by decide) (by decide) (by rw [htc]; decide)
  · exact hfood (0, 0) (by decide) (by decide) (by decide)

/-- Witness for C9: the module-level `Snake(3)` aliases the default list, and
after a southward turn a later default-constructed `Snake(5)` still validates
and observes the mutated default. -/
theorem claim_C9_witness :
    mkSnakeDefault 3 initStore = some snake3Obj ∧
    (mkSnakeDefault 5 (snake3Obj.turnOp .S initStore)).isSome = true :=
  ⟨(claim_C9 .S 5 (by decide)).1, (claim_C9 .S 5 (by decide)).2.2⟩
